import Mathlib

/-!
Verification development for the check-cx repository.

The definitions below are a shallow embedding of the TypeScript / SQL sources:

* `src/lib/checks.ts`          — provider health checks and stream parsers
* `src/lib/providers/openai.ts`— SDK-based OpenAI check
* `src/lib/core/group-data.ts` — group dashboard assembly and refresh coalescing
* the SQL migration defining `get_recent_check_history` / `prune_check_history`

Modelling conventions:

* JavaScript values produced by `JSON.parse` are modelled by the inductive
  type `Js`; `JSON.parse` itself and `JSON.stringify` are external runtime
  primitives, so they are passed in as an explicit environment `JsEnv`
  (parse failure is `Option.none`).
* Wall-clock instants (`Date.now()`) are `Int` parameters; derived ISO
  strings (`new Date().toISOString()`) are `String` parameters.
* JavaScript strings are sequences of UTF-16 code units; inside the stream
  parsers they are modelled as `List Char`, and `String.prototype.split`
  on the one-character separator `"\n"` is modelled by `splitNl`.
* Asynchronous control flow is modelled by making the outcome of each
  network interaction an explicit argument (`StreamOutcome`, `SdkOutcome`),
  one constructor per disjoint control path of the source.
-/

/-- The `ProviderType` union from `src/lib/checks.ts`. -/
inductive ProviderType where
  | openai
  | gemini
  | anthropic
deriving DecidableEq, Repr

/-- The `HealthStatus` union; `lib/types` additionally has `maintenance`,
used by `group-data.ts` for maintenance providers. -/
inductive HealthStatus where
  | operational
  | degraded
  | failed
  | maintenance
deriving DecidableEq, Repr

/-- JavaScript values as returned by `JSON.parse` (numbers restricted to the
integer values that the claims exercise). -/
inductive Js where
  | null
  | bool (b : Bool)
  | num (n : Int)
  | str (s : String)
  | arr (elems : List Js)
  | obj (fields : List (String × Js))

/-- JavaScript truthiness of a `Js` value (`undefined`, modelled as
`Option.none` at use sites, is always falsy). -/
def jsTruthy : Js → Bool
  | .null => false
  | .bool b => b
  | .num n => n != 0
  | .str s => s != ""
  | .arr _ => true
  | .obj _ => true

/-- JavaScript member access `v?.k`: `Option.none` models `undefined`.
Member access on a non-object yields `undefined`. -/
def jsGet (v : Js) (k : String) : Option Js :=
  match v with
  | .obj fields => (fields.find? (fun f => f.1 == k)).map (fun f => f.2)
  | _ => none

/-- Optional chaining `v?.k1?.k2`. -/
def jsGet2 (v : Js) (k1 k2 : String) : Option Js :=
  match jsGet v k1 with
  | some w => jsGet w k2
  | none => none

/-- The JavaScript `||` operator applied to a possibly-`undefined` left
operand: returns the left value when it is present and truthy, otherwise
the right operand. -/
def jsOrElse (a : Option Js) (b : Js) : Js :=
  match a with
  | some v => if jsTruthy v then v else b
  | none => b

/-- `m || "fallback"` for an optional JavaScript string `m`
(`undefined` and `""` both fall through). -/
def strOrElse (m : Option String) (d : String) : String :=
  match m with
  | some s => if s = "" then d else s
  | none => d

/-- Environment bundling the external JavaScript JSON primitives:
`parse` models `JSON.parse` (`none` = the call throws), `stringify`
models `JSON.stringify`. -/
structure JsEnv where
  parse : String → Option Js
  stringify : Js → String

/-- The `ProviderConfig` interface from `src/lib/checks.ts`. -/
structure ProviderConfig where
  id : String
  name : String
  type : ProviderType
  endpoint : String
  model : String
  apiKey : String
deriving DecidableEq, Repr

/-- Stand-in for the payload of an official-status lookup
(`getOfficialStatus`); its internal structure is irrelevant to the claims. -/
structure OfficialStatusInfo where
  raw : String
deriving DecidableEq, Repr

/-- The `CheckResult` record.  `message` is kept as a `Js` value because
`extractMessage` can produce a non-string JavaScript value which the source
stores in the `message` field unchanged; plain string messages appear as
`Js.str`.  The `pingLatencyMs`, `groupName` and `officialStatus` fields
exist on the `lib/types` variant used by `group-data.ts` and default to
`none` for results built by `checks.ts`. -/
structure CheckResult where
  id : String
  name : String
  type : ProviderType
  endpoint : String
  model : String
  status : HealthStatus
  latencyMs : Option Int
  pingLatencyMs : Option Int := none
  checkedAt : String
  message : Js
  groupName : Option String := none
  officialStatus : Option OfficialStatusInfo := none

/-- `DEGRADED_THRESHOLD_MS` from `src/lib/checks.ts` (same constant in
`src/lib/providers/openai.ts`). -/
def degradedThresholdMs : Int := 6000

/-- `extractMessage` from `src/lib/checks.ts`:

```ts
if (!body) return "";
try {
  const parsed = JSON.parse(body);
  return parsed?.error?.message || parsed?.error || parsed?.message || JSON.stringify(parsed);
} catch {
  return body.slice(0, 280);
}
```
-/
def extractMessage (env : JsEnv) (body : String) : Js :=
  if body = "" then .str ""
  else
    match env.parse body with
    | some parsed =>
        jsOrElse (jsGet2 parsed ("error") ("message"))
          (jsOrElse (jsGet parsed ("error"))
            (jsOrElse (jsGet parsed ("message"))
              (.str (env.stringify parsed))))
    | none => .str (body.take 280)

/-- The disjoint control paths of `runStreamCheck` in `src/lib/checks.ts`:

* `httpError`: a response arrived with `response.ok = false`; `respAt` is the
  clock value when the non-ok branch computes `latencyMs`, `body` the error
  body text;
* `streamOk`: a 2xx response whose body stream the provider parser consumed
  to completion, finishing at clock value `doneAt`;
* `emptyBody`: a 2xx response with `response.body === null` (the source
  throws `Error("响应体为空")`, caught by its own catch block);
* `thrown`: `fetch`/stream reading threw; `isAbort` is whether
  `err.name === "AbortError"` (timeout), `errMsg` models `err.message`
  (`none` = absent). -/
inductive StreamOutcome where
  | httpError (httpStatus : Nat) (respAt : Int) (body : String)
  | streamOk (doneAt : Int)
  | emptyBody
  | thrown (isAbort : Bool) (errMsg : Option String)
deriving DecidableEq, Repr

/-- `runStreamCheck` from `src/lib/checks.ts`, as a function of the probe
outcome.  `endpointShown` models `params.displayEndpoint || params.url`
(computed by the per-provider callers), `startedAt` the `Date.now()` value
captured before `fetch`, `checkedAtStr` the `new Date().toISOString()`
rendering at result construction. -/
def runStreamCheck (env : JsEnv) (config : ProviderConfig) (endpointShown : String)
    (startedAt : Int) (checkedAtStr : String) (o : StreamOutcome) : CheckResult :=
  match o with
  | .httpError st respAt body =>
      { id := config.id
        name := config.name
        type := config.type
        endpoint := endpointShown
        model := config.model
        status := .failed
        latencyMs := some (respAt - startedAt)
        checkedAt := checkedAtStr
        message := jsOrElse (some (extractMessage env body)) (.str ("HTTP " ++ toString st)) }
  | .streamOk doneAt =>
      { id := config.id
        name := config.name
        type := config.type
        endpoint := endpointShown
        model := config.model
        status := if doneAt - startedAt ≤ degradedThresholdMs then .operational else .degraded
        latencyMs := some (doneAt - startedAt)
        checkedAt := checkedAtStr
        message :=
          if doneAt - startedAt ≤ degradedThresholdMs then
            .str ("流式响应正常 (" ++ toString (doneAt - startedAt) ++ "ms)")
          else
            .str ("响应成功但耗时 " ++ toString (doneAt - startedAt) ++ "ms") }
  | .emptyBody =>
      { id := config.id
        name := config.name
        type := config.type
        endpoint := endpointShown
        model := config.model
        status := .failed
        latencyMs := none
        checkedAt := checkedAtStr
        message := .str "响应体为空" }
  | .thrown isAbort errMsg =>
      { id := config.id
        name := config.name
        type := config.type
        endpoint := endpointShown
        model := config.model
        status := .failed
        latencyMs := none
        checkedAt := checkedAtStr
        message := .str (if isAbort then "请求超时" else strOrElse errMsg ("未知错误")) }

/-- The control paths of the SDK-based `checkOpenAI` in
`src/lib/providers/openai.ts`: either the streamed chat completion is
consumed to completion (`ok`, finishing at `doneAt`), or the SDK call /
stream iteration threw (`thrown`; non-2xx responses surface here as SDK
`APIError`s). -/
inductive SdkOutcome where
  | ok (doneAt : Int)
  | thrown (isAbort : Bool) (errMsg : Option String)
deriving DecidableEq, Repr

/-- `checkOpenAI` from `src/lib/providers/openai.ts` as a function of the SDK
outcome.  `displayEndpoint = config.endpoint || DEFAULT_ENDPOINTS.openai`;
the derived `baseURL` only shapes the outgoing request and does not appear
in the result, so it is not modelled. -/
def checkOpenAI (config : ProviderConfig) (startedAt : Int) (checkedAtStr : String)
    (o : SdkOutcome) : CheckResult :=
  let displayEndpoint :=
    if config.endpoint = "" then "https://api.openai.com/v1/chat/completions"
    else config.endpoint
  match o with
  | .ok doneAt =>
      { id := config.id
        name := config.name
        type := config.type
        endpoint := displayEndpoint
        model := config.model
        status := if doneAt - startedAt ≤ degradedThresholdMs then .operational else .degraded
        latencyMs := some (doneAt - startedAt)
        checkedAt := checkedAtStr
        message :=
          if doneAt - startedAt ≤ degradedThresholdMs then
            .str ("流式响应正常 (" ++ toString (doneAt - startedAt) ++ "ms)")
          else
            .str ("响应成功但耗时 " ++ toString (doneAt - startedAt) ++ "ms") }
  | .thrown isAbort errMsg =>
      { id := config.id
        name := config.name
        type := config.type
        endpoint := displayEndpoint
        model := config.model
        status := .failed
        latencyMs := none
        checkedAt := checkedAtStr
        message := .str (if isAbort then "请求超时" else strOrElse errMsg ("未知错误")) }

/-- How one provider check behaves inside `runProviderChecks`
(`src/lib/checks.ts`): either `checkProvider` ran `runStreamCheck` with some
probe outcome, or the awaited call threw and the surrounding `catch` built
the fallback result (`errMsg` models `err?.message`). -/
inductive ProviderRunModel where
  | completed (endpointShown : String) (startedAt : Int) (checkedAtStr : String)
      (o : StreamOutcome)
  | threw (checkedAtStr : String) (errMsg : Option String)
deriving DecidableEq, Repr

/-- The result produced for one config inside the `configs.map` of
`runProviderChecks`: the `try` arm delegates to `runStreamCheck` (via
`checkProvider`/`checkOpenAI`-style callers), the `catch` arm builds the
fallback `failed` result of lines 88–99 of `src/lib/checks.ts`. -/
def runOneProviderCheck (env : JsEnv) (behave : ProviderConfig → ProviderRunModel)
    (config : ProviderConfig) : CheckResult :=
  match behave config with
  | .completed endpointShown startedAt checkedAtStr o =>
      runStreamCheck env config endpointShown startedAt checkedAtStr o
  | .threw checkedAtStr errMsg =>
      { id := config.id
        name := config.name
        type := config.type
        endpoint := config.endpoint
        model := config.model
        status := .failed
        latencyMs := none
        checkedAt := checkedAtStr
        message := .str (strOrElse errMsg ("未知错误")) }

/-- `runProviderChecks` from `src/lib/checks.ts`: map every config to a
result (the per-config `catch` turns exceptions into `failed` results) and
sort by display name.  `cmp` models `String.prototype.localeCompare`; the
JavaScript sort keeps `a` before `b` whenever the comparator is `≤ 0`,
i.e. whenever `cmp a.name b.name ≠ .gt`. -/
def runProviderChecks (env : JsEnv) (cmp : String → String → Ordering)
    (configs : List ProviderConfig) (behave : ProviderConfig → ProviderRunModel) :
    List CheckResult :=
  (configs.map (runOneProviderCheck env behave)).mergeSort
    (fun a b => cmp a.name b.name ≠ Ordering.gt)

/-- `String.prototype.split("\n")` on a JavaScript string modelled as a list
of characters: splits at every newline, keeping empty segments, and always
returns at least one segment. -/
def splitNl : List Char → List (List Char)
  | [] => [[]]
  | c :: rest =>
      if c = '\n' then [] :: splitNl rest
      else
        match splitNl rest with
        | s :: ss => (c :: s) :: ss
        | [] => [[c]]

/-- `String.prototype.trim()` on a character list (whitespace stripped from
both ends). -/
def trimChars (s : List Char) : List Char :=
  ((s.dropWhile Char.isWhitespace).reverse.dropWhile Char.isWhitespace).reverse

/-- The SSE event marker `"data: "` of the OpenAI / Anthropic framings. -/
def sseDataTag : List Char := ("data: ").data

/-- The OpenAI stream terminator payload `"[DONE]"`. -/
def doneMarker : List Char := ("[DONE]").data

/-- Processing of one kept line of `parseOpenAIStream`
(`src/lib/checks.ts`, lines 303–317): lines starting with `"data: "` carry a
payload; the `"[DONE]"` payload ends parsing (second component `true`),
otherwise `ext` models `JSON.parse` followed by
`parsed.choices?.[0]?.delta?.content || ""` (`none` = the parse threw, the
fragment is skipped). -/
def openAILineStep (ext : List Char → Option (List Char)) (acc line : List Char) :
    List Char × Bool :=
  if sseDataTag.isPrefixOf line then
    let payload := line.drop 6
    if payload = doneMarker then (acc, true)
    else
      match ext payload with
      | some t => (acc ++ t, false)
      | none => (acc, false)
  else (acc, false)

/-- The inner `for`-loop of `parseOpenAIStream` over the kept lines of one
chunk, short-circuiting when `"[DONE]"` is seen. -/
def openAILines (ext : List Char → Option (List Char)) :
    List (List Char) → List Char → List Char × Bool
  | [], acc => (acc, false)
  | l :: ls, acc =>
      match openAILineStep ext acc l with
      | (acc2, true) => (acc2, true)
      | (acc2, false) => openAILines ext ls acc2

/-- The chunk loop of `parseOpenAIStream`:  each chunk is split on newlines,
blank lines are dropped (`filter(line => line.trim())`), and no buffer is
carried between chunks. -/
def openAIChunks (ext : List Char → Option (List Char)) :
    List (List Char) → List Char → List Char
  | [], acc => acc
  | c :: cs, acc =>
      match openAILines ext ((splitNl c).filter (fun l => !(trimChars l).isEmpty)) acc with
      | (acc2, true) => acc2
      | (acc2, false) => openAIChunks ext cs acc2

/-- `parseOpenAIStream` from `src/lib/checks.ts` as a function of the decoded
text chunks delivered by the reader. -/
def parseOpenAIStream (ext : List Char → Option (List Char))
    (chunks : List (List Char)) : List Char :=
  openAIChunks ext chunks []

/-- Processing of one complete line of `parseAnthropicStream`
(`src/lib/checks.ts`, lines 339–354).  `aext` models `JSON.parse` followed by
the pair `(parsed.type, parsed.delta?.text || "")` (`none` = the parse
threw); only events whose `type` is `"content_block_delta"` contribute. -/
def anthropicLineStep (aext : List Char → Option (List Char × List Char))
    (acc line : List Char) : List Char :=
  if sseDataTag.isPrefixOf line then
    match aext (line.drop 6) with
    | some (ty, txt) => if ty = ("content_block_delta").data then acc ++ txt else acc
    | none => acc
  else acc

/-- The chunk loop of `parseAnthropicStream`: the running buffer is extended
by each chunk, split on newlines, the final (possibly incomplete) segment is
kept back (`buffer = lines.pop() || ""`), and the complete lines are
processed in order.  At stream end the leftover buffer is discarded. -/
def anthropicChunks (aext : List Char → Option (List Char × List Char)) :
    List (List Char) → List Char → List Char → List Char
  | [], acc, _buf => acc
  | c :: cs, acc, buf =>
      let ls := splitNl (buf ++ c)
      anthropicChunks aext cs (ls.dropLast.foldl (anthropicLineStep aext) acc)
        ((ls.getLast?).getD [])

/-- `parseAnthropicStream` from `src/lib/checks.ts` as a function of the
decoded text chunks. -/
def parseAnthropicStream (aext : List Char → Option (List Char × List Char))
    (chunks : List (List Char)) : List Char :=
  anthropicChunks aext chunks [] []

/-- Processing of one buffered segment of `parseGeminiStream`
(`src/lib/checks.ts`): `gext` models `JSON.parse` followed by
`parsed.candidates?.[0]?.content?.parts?.[0]?.text || ""` (`none` = the
parse threw, the fragment is skipped). -/
def geminiObjStep (gext : List Char → Option (List Char)) (acc obj : List Char) :
    List Char :=
  match gext obj with
  | some t => acc ++ t
  | none => acc

/-- The chunk loop of `parseGeminiStream` (`src/lib/checks.ts`,
lines 361–404): the buffer is extended by each chunk and split on newlines,
blank segments are dropped (`filter(s => s.trim())`), all but the last kept
segment are parsed, and the last kept segment becomes the new buffer
(`jsonObjects[jsonObjects.length - 1] || ""`).  At stream end a non-blank
leftover buffer is parsed once more. -/
def geminiChunks (gext : List Char → Option (List Char)) :
    List (List Char) → List Char → List Char → List Char
  | [], acc, buf =>
      if !(trimChars buf).isEmpty then geminiObjStep gext acc buf else acc
  | c :: cs, acc, buf =>
      let objs := (splitNl (buf ++ c)).filter (fun s => !(trimChars s).isEmpty)
      geminiChunks gext cs (objs.dropLast.foldl (geminiObjStep gext) acc)
        ((objs.getLast?).getD [])

/-- `parseGeminiStream` from `src/lib/checks.ts` as a function of the decoded
text chunks. -/
def parseGeminiStream (gext : List Char → Option (List Char))
    (chunks : List (List Char)) : List Char :=
  geminiChunks gext chunks [] []

/-- A row of the `check_history` table (`rowId` is the primary key `id`). -/
structure HistoryRow where
  rowId : Nat
  configId : String
  status : String
  latencyMs : Option Int
  pingLatencyMs : Option Int
  checkedAt : Int
  message : String
deriving DecidableEq, Repr

/-- A row of the `check_configs` table (the columns used by the join in
`get_recent_check_history`). -/
structure ConfigRow where
  id : String
  name : String
  type : String
  model : String
  endpoint : String
  groupName : Option String
deriving DecidableEq, Repr

/-- A row returned by `get_recent_check_history` (history columns joined
with the owning config's columns). -/
structure RecentHistoryRow where
  configId : String
  status : String
  latencyMs : Option Int
  pingLatencyMs : Option Int
  checkedAt : Int
  message : String
  name : String
  type : String
  model : String
  endpoint : String
  groupName : Option String
deriving DecidableEq, Repr

/-- The `ranked` CTE ordering of one partition:
`row_number() over (partition by config_id order by checked_at desc)` —
the rows of one `config_id`, sorted by `checked_at` descending.  SQL leaves
the order of ties unspecified; the model fixes it as the stable sort of the
table order. -/
def rankedDesc (rows : List HistoryRow) (c : String) : List HistoryRow :=
  (rows.filter (fun r => r.configId == c)).mergeSort
    (fun a b => b.checkedAt ≤ a.checkedAt)

/-- The `rn` value assigned to row `r` by the `ranked` CTE (1-based). -/
def rowRank (rows : List HistoryRow) (r : HistoryRow) : Nat :=
  (rankedDesc rows r.configId).indexOf r + 1

/-- `prune_check_history(limit_per_config)` from the SQL migration: delete
every row whose `rn` exceeds the limit; the kept table. -/
def prune_check_history (limitPerConfig : Nat) (rows : List HistoryRow) :
    List HistoryRow :=
  rows.filter (fun r => rowRank rows r ≤ limitPerConfig)

/-- The target filter of `get_recent_check_history`:
`target_config_ids is null or h.config_id = any(target_config_ids)`. -/
def targetFiltered (targets : Option (List String)) (rows : List HistoryRow) :
    List HistoryRow :=
  match targets with
  | none => rows
  | some ts => rows.filter (fun r => ts.contains r.configId)

/-- The inner-join row construction of `get_recent_check_history`. -/
def joinConfig (configs : List ConfigRow) (r : HistoryRow) : List RecentHistoryRow :=
  (configs.filter (fun c => c.id == r.configId)).map (fun c =>
    { configId := r.configId
      status := r.status
      latencyMs := r.latencyMs
      pingLatencyMs := r.pingLatencyMs
      checkedAt := r.checkedAt
      message := r.message
      name := c.name
      type := c.type
      model := c.model
      endpoint := c.endpoint
      groupName := c.groupName })

/-- `get_recent_check_history(limit_per_config, target_config_ids)` from the
SQL migration: rank the target-filtered history per config by `checked_at`
descending, keep ranks up to the limit, join `check_configs`, and order by
config name ascending then `checked_at` descending. -/
def get_recent_check_history (limitPerConfig : Nat) (targets : Option (List String))
    (configs : List ConfigRow) (rows : List HistoryRow) : List RecentHistoryRow :=
  let tf := targetFiltered targets rows
  let kept := tf.filter (fun r => rowRank tf r ≤ limitPerConfig)
  (kept.flatMap (joinConfig configs)).mergeSort
    (fun a b => a.name < b.name ∨ (a.name = b.name ∧ b.checkedAt ≤ a.checkedAt))

/-- The process-wide cache entry for one cache key, as described by the spec
for `getPingCacheEntry` and mutated by `refreshHistory` in
`src/lib/core/group-data.ts`.  `H` is the history-snapshot payload type.
An in-flight refresh is identified by its promise id together with the
`Date.now()` value at which its dispatch ran. -/
structure CacheEntry (H : Type) where
  history : Option H
  lastPingAt : Int
  inflight : Option (Nat × Int)

/-- The freshly created cache entry (`history` and `inflight` absent). -/
def CacheEntry.initial (H : Type) : CacheEntry H :=
  { history := none, lastPingAt := 0, inflight := none }

/-- What one synchronous dispatch of `refreshHistory` does, in source order
(`src/lib/core/group-data.ts`, lines 115–148):

* `returnEmpty` — `allowedIds.size === 0`;
* `returnCached h` — a cached history exists and is younger than the poll
  interval;
* `awaitInflight p` — an in-flight refresh exists; the caller awaits it;
* `startProbe p` — otherwise a new in-flight refresh `p` is installed and
  its probe round starts. -/
inductive RefreshAction (H : Type) where
  | returnEmpty
  | returnCached (h : H)
  | awaitInflight (p : Nat)
  | startProbe (p : Nat)

/-- The synchronous prologue of `refreshHistory`: the checks and the
installation of a new in-flight promise happen atomically on the JavaScript
event loop (there is no `await` between them). -/
def refreshDispatch {H : Type} (pollIntervalMs : Int) (allowedCount : Nat)
    (now : Int) (newId : Nat) (st : CacheEntry H) :
    RefreshAction H × CacheEntry H :=
  if allowedCount = 0 then (.returnEmpty, st)
  else
    match st.history with
    | some h =>
        if now - st.lastPingAt < pollIntervalMs then (.returnCached h, st)
        else
          match st.inflight with
          | some (p, _) => (.awaitInflight p, st)
          | none => (.startProbe newId, { st with inflight := some (newId, now) })
    | none =>
        match st.inflight with
        | some (p, _) => (.awaitInflight p, st)
        | none => (.startProbe newId, { st with inflight := some (newId, now) })

/-- Number of probe rounds triggered by one dispatch. -/
def RefreshAction.probes {H : Type} : RefreshAction H → Nat
  | .startProbe _ => 1
  | _ => 0

/-- Completion of the in-flight refresh: the async body stores the new
history and `Date.now()` into the entry and the awaiting `finally` clears
`inflight`; these steps run without an intervening suspension point. -/
def completeInflight {H : Type} (st : CacheEntry H) (h : H) (doneAt : Int) :
    CacheEntry H :=
  match st.inflight with
  | some _ => { history := some h, lastPingAt := doneAt, inflight := none }
  | none => st

/-- An event on one cache entry: a `refreshHistory` call dispatching at time
`now` (with `newId` the identity of the promise it would create), or the
completion of the current in-flight refresh. -/
inductive CacheEvent (H : Type) where
  | call (now : Int) (newId : Nat)
  | complete (h : H) (doneAt : Int)

/-- One event step on a cache entry. -/
def cacheStep {H : Type} (pollIntervalMs : Int) (allowedCount : Nat)
    (st : CacheEntry H) : CacheEvent H → CacheEntry H
  | .call now newId => (refreshDispatch pollIntervalMs allowedCount now newId st).2
  | .complete h doneAt => completeInflight st h doneAt

/-- The cache entry reached from `st` after a list of events. -/
def cacheRun {H : Type} (pollIntervalMs : Int) (allowedCount : Nat)
    (st : CacheEntry H) (evs : List (CacheEvent H)) : CacheEntry H :=
  evs.foldl (cacheStep pollIntervalMs allowedCount) st

/-- Reachability invariant of a cache entry: whenever a refresh is in
flight, the cache was stale (or absent) at the instant the refresh was
installed. -/
def CacheInv {H : Type} (pollIntervalMs : Int) (st : CacheEntry H) : Prop :=
  ∀ p t, st.inflight = some (p, t) →
    st.history = none ∨ pollIntervalMs ≤ t - st.lastPingAt

/-- `n` back-to-back `refreshHistory` dispatches (no completion in between),
returning the final entry and the total number of probe rounds started.
`times` and `ids` supply the clock value and prospective promise id of each
call. -/
def concurrentCalls {H : Type} (pollIntervalMs : Int) (allowedCount : Nat) :
    List (Int × Nat) → CacheEntry H → CacheEntry H × Nat
  | [], st => (st, 0)
  | (now, newId) :: rest, st =>
      let d := refreshDispatch pollIntervalMs allowedCount now newId st
      let r := concurrentCalls pollIntervalMs allowedCount rest d.2
      (r.1, d.1.probes + r.2)

/-- The `RefreshMode` union from `lib/types`. -/
inductive RefreshMode where
  | always
  | missing
  | never
deriving DecidableEq, Repr

/-- A provider config row as loaded by `loadProviderConfigsFromDB` and used
in `src/lib/core/group-data.ts` (`groupName = none` models SQL `null`). -/
structure DbConfig where
  id : String
  name : String
  type : ProviderType
  endpoint : String
  model : String
  groupName : Option String
  is_maintenance : Bool
deriving DecidableEq, Repr

/-- JavaScript truthiness of the nullable `groupName` field (`null`,
`undefined` and `""` are all falsy). -/
def groupNameTruthy : Option String → Bool
  | none => false
  | some s => s != ""

/-- `UNGROUPED_KEY` from `src/lib/core/group-data.ts`. -/
def ungroupedKey : String := "__ungrouped__"

/-- The group filter of `loadGroupDashboardData`: for the ungrouped
sentinel, configs without a truthy `groupName`; otherwise strict equality
with the target group name. -/
def groupMatches (target : String) (cfg : DbConfig) : Bool :=
  if target == ungroupedKey then !(groupNameTruthy cfg.groupName)
  else cfg.groupName == some target

/-- `HistorySnapshot`: the JavaScript object mapping config id to its
check-result list, modelled as an association list in key-insertion order
(`Object.entries` enumerates string keys in that order). -/
def HistorySnapshot := List (String × List CheckResult)

/-- `filterHistory` from `src/lib/core/group-data.ts`: an empty allowed set
yields the empty object, otherwise the entries are filtered to allowed ids. -/
def filterHistorySnap (allowedIds : List String) (history : HistorySnapshot) :
    HistorySnapshot :=
  if allowedIds.isEmpty then []
  else history.filter (fun e => allowedIds.contains e.1)

/-- The `ProviderTimeline` shape from `lib/types` as used by
`group-data.ts`. -/
structure ProviderTimeline where
  id : String
  items : List CheckResult
  latest : CheckResult

/-- The `GroupDashboardData` interface from `src/lib/core/group-data.ts`. -/
structure GroupDashboardData where
  groupName : String
  displayName : String
  providerTimelines : List ProviderTimeline
  lastUpdated : Option String
  total : Nat
  pollIntervalLabel : String
  pollIntervalMs : Int
  generatedAt : Int

/-- External collaborators and per-process state consumed by
`loadGroupDashboardData`, all supplied explicitly:

* `cmp` models `String.prototype.localeCompare`;
* `parseTime` models `new Date(s).getTime()`;
* `official` models `getOfficialStatus` (the official-status poller cache);
* `pollIntervalMs` / `pollIntervalLabel` model `getPollingIntervalMs` /
  `getPollingIntervalLabel`. -/
structure GroupLoadEnv where
  cmp : String → String → Ordering
  parseTime : String → Int
  official : ProviderType → Option OfficialStatusInfo
  pollIntervalMs : Int
  pollIntervalLabel : String

/-- The store-facing collaborators of `loadGroupDashboardData`:

* `store` — what `loadHistory()` currently returns;
* `appendFn` — what `appendHistory(results)` returns (the updated snapshot);
* `probeFn` — `runProviderChecks(activeConfigs)` from `lib/providers`
  (its body lives outside the available sources, so it stays abstract);
* `cache` — the process-wide `getPingCacheEntry(cacheKey)` entry;
* `inflightValue` — the snapshot an already-in-flight refresh resolves to. -/
structure GroupStore where
  store : HistorySnapshot
  appendFn : List CheckResult → HistorySnapshot
  probeFn : List DbConfig → List CheckResult
  cache : CacheEntry HistorySnapshot
  inflightValue : HistorySnapshot

/-- What one invocation of `loadGroupDashboardData` produced: the returned
data, the configs handed to `runProviderChecks` (probed), and the batches
handed to `appendHistory` (written). -/
structure GroupLoadOutcome where
  data : Option GroupDashboardData
  probed : List DbConfig
  written : List (List CheckResult)

/-- The `refreshHistory` closure of `src/lib/core/group-data.ts`
(lines 115–148), returning the history it resolves to together with the
probe and write traffic this call itself generated. -/
def refreshHistoryRun (env : GroupLoadEnv) (gs : GroupStore)
    (activeConfigs : List DbConfig) (allowedIds : List String) (now : Int) :
    HistorySnapshot × List DbConfig × List (List CheckResult) :=
  if allowedIds.isEmpty then ([], [], [])
  else
    match gs.cache.history with
    | some h =>
        if now - gs.cache.lastPingAt < env.pollIntervalMs then (h, [], [])
        else
          match gs.cache.inflight with
          | some _ => (gs.inflightValue, [], [])
          | none =>
              let results := gs.probeFn activeConfigs
              if results.isEmpty then
                (filterHistorySnap allowedIds gs.store, activeConfigs, [])
              else
                (filterHistorySnap allowedIds (gs.appendFn results), activeConfigs,
                  [results])
    | none =>
        match gs.cache.inflight with
        | some _ => (gs.inflightValue, [], [])
        | none =>
            let results := gs.probeFn activeConfigs
            if results.isEmpty then
              (filterHistorySnap allowedIds gs.store, activeConfigs, [])
            else
              (filterHistorySnap allowedIds (gs.appendFn results), activeConfigs,
                [results])

/-- One entry of `mappedTimelines` (`group-data.ts`, lines 163–186): sort the
items newest-first, drop empty timelines, and attach the official status to
a copy of the newest item. -/
def mapTimeline (env : GroupLoadEnv) (e : String × List CheckResult) :
    Option ProviderTimeline :=
  let sorted := e.2.mergeSort
    (fun a b => env.parseTime b.checkedAt ≤ env.parseTime a.checkedAt)
  match sorted.head? with
  | none => none
  | some first =>
      let latest :=
        match env.official first.type with
        | some o => { first with officialStatus := some o }
        | none => first
      some { id := e.1, items := sorted, latest := latest }

/-- One entry of `maintenanceTimelines` (`group-data.ts`, lines 189–215):
an empty item list and a synthesized `maintenance` result stamped with the
current time. -/
def maintenanceTimeline (env : GroupLoadEnv) (nowStr : String) (cfg : DbConfig) :
    ProviderTimeline :=
  let base : CheckResult :=
    { id := cfg.id
      name := cfg.name
      type := cfg.type
      endpoint := cfg.endpoint
      model := cfg.model
      status := .maintenance
      latencyMs := none
      pingLatencyMs := none
      checkedAt := nowStr
      message := .str "配置处于维护模式"
      groupName := if groupNameTruthy cfg.groupName then cfg.groupName else none }
  let latest :=
    match env.official cfg.type with
    | some o => { base with officialStatus := some o }
    | none => base
  { id := cfg.id, items := [], latest := latest }

/-- `groupConfigs` of `loadGroupDashboardData`: the configs of the target
group. -/
def groupConfigsOf (allConfigs : List DbConfig) (target : String) : List DbConfig :=
  allConfigs.filter (groupMatches target)

/-- `maintenanceConfigs`: the group's configs flagged as in maintenance. -/
def maintenanceConfigsOf (allConfigs : List DbConfig) (target : String) : List DbConfig :=
  (groupConfigsOf allConfigs target).filter (fun cfg => cfg.is_maintenance)

/-- `activeConfigs`: the group's configs that are not in maintenance. -/
def activeConfigsOf (allConfigs : List DbConfig) (target : String) : List DbConfig :=
  (groupConfigsOf allConfigs target).filter (fun cfg => !cfg.is_maintenance)

/-- `allowedIds`: the ids of the active configs. -/
def allowedIdsOf (allConfigs : List DbConfig) (target : String) : List String :=
  (activeConfigsOf allConfigs target).map (fun cfg => cfg.id)

/-- The history snapshot `loadGroupDashboardData` works from, together with
the probe and write traffic, per refresh mode (`group-data.ts`,
lines 150–161): `always` refreshes, `missing` refreshes only when the
filtered persisted history is empty, `never` only reads. -/
def loadRefreshed (env : GroupLoadEnv) (gs : GroupStore) (allConfigs : List DbConfig)
    (target : String) (mode : RefreshMode) (now : Int) :
    HistorySnapshot × List DbConfig × List (List CheckResult) :=
  let allowedIds := allowedIdsOf allConfigs target
  let history0 := filterHistorySnap allowedIds gs.store
  match mode with
  | .always => refreshHistoryRun env gs (activeConfigsOf allConfigs target) allowedIds now
  | .missing =>
      if !allowedIds.isEmpty ∧ history0.isEmpty then
        refreshHistoryRun env gs (activeConfigsOf allConfigs target) allowedIds now
      else (history0, [], [])
  | .never => (history0, [], [])

/-- The assembly of the returned `GroupDashboardData` record
(`group-data.ts`, lines 163–241) from the history in effect. -/
def assembleGroupData (env : GroupLoadEnv) (allConfigs : List DbConfig)
    (target : String) (history : HistorySnapshot) (now : Int) (nowStr : String) :
    GroupDashboardData :=
  let mapped := history.filterMap (mapTimeline env)
  let providerTimelines :=
    (mapped ++ (maintenanceConfigsOf allConfigs target).map
        (maintenanceTimeline env nowStr)).mergeSort
      (fun a b => env.cmp a.latest.name b.latest.name ≠ Ordering.gt)
  let allEntries :=
    (providerTimelines.flatMap (fun tl => tl.items)).mergeSort
      (fun a b => env.parseTime b.checkedAt ≤ env.parseTime a.checkedAt)
  { groupName := target
    displayName := if target == ungroupedKey then "未分组" else target
    providerTimelines := providerTimelines
    lastUpdated := (allEntries.head?).map (fun r => r.checkedAt)
    total := providerTimelines.length
    pollIntervalLabel := env.pollIntervalLabel
    pollIntervalMs := env.pollIntervalMs
    generatedAt := now }

/-- `loadGroupDashboardData` from `src/lib/core/group-data.ts` as a pure
function of its collaborators, also reporting the probe and write traffic
of this call.  `now` is the `Date.now()` clock of this invocation and
`nowStr` its `new Date().toISOString()` rendering.  An empty group yields
`null`. -/
def loadGroupDashboardData (env : GroupLoadEnv) (gs : GroupStore)
    (allConfigs : List DbConfig) (target : String) (mode : RefreshMode)
    (now : Int) (nowStr : String) : GroupLoadOutcome :=
  if (groupConfigsOf allConfigs target).isEmpty then
    { data := none, probed := [], written := [] }
  else
    let refreshed := loadRefreshed env gs allConfigs target mode now
    { data := some (assembleGroupData env allConfigs target refreshed.1 now nowStr)
      probed := refreshed.2.1
      written := refreshed.2.2 }

/-- The result built for one config by `runProviderChecks` always carries
that config's id, whichever control path produced it. -/
theorem runOneProviderCheck_id (env : JsEnv) (behave : ProviderConfig → ProviderRunModel)
    (cfg : ProviderConfig) : (runOneProviderCheck env behave cfg).id = cfg.id := by
  unfold runOneProviderCheck
  cases behave cfg with
  | completed ep t0 s o => cases o <;> simp [runStreamCheck]
  | threw s m => rfl

/-- Claim C1: for a probe whose 2xx response stream is consumed to
completion, the result's `latencyMs` is non-negative (the clock being
monotone), the status is `operational` exactly when the latency is at most
6000 ms and `degraded` exactly when it exceeds 6000 ms; and across all
outcomes the status lies in `{operational, degraded}` iff the outcome is
the consumed-2xx one — both for `runStreamCheck` and for the SDK-based
`checkOpenAI`. -/
theorem claim_c1 (env : JsEnv) (cfg : ProviderConfig) (ep : String)
    (t0 doneAt : Int) (s : String) (h : t0 ≤ doneAt) :
    (∃ l, (runStreamCheck env cfg ep t0 s (.streamOk doneAt)).latencyMs = some l
      ∧ 0 ≤ l
      ∧ ((runStreamCheck env cfg ep t0 s (.streamOk doneAt)).status = .operational ↔ l ≤ 6000)
      ∧ ((runStreamCheck env cfg ep t0 s (.streamOk doneAt)).status = .degraded ↔ 6000 < l))
    ∧ (∀ o, ((runStreamCheck env cfg ep t0 s o).status = .operational
          ∨ (runStreamCheck env cfg ep t0 s o).status = .degraded)
        ↔ ∃ d, o = StreamOutcome.streamOk d)
    ∧ (∃ l, (checkOpenAI cfg t0 s (.ok doneAt)).latencyMs = some l
      ∧ 0 ≤ l
      ∧ ((checkOpenAI cfg t0 s (.ok doneAt)).status = .operational ↔ l ≤ 6000)
      ∧ ((checkOpenAI cfg t0 s (.ok doneAt)).status = .degraded ↔ 6000 < l))
    ∧ (∀ o, ((checkOpenAI cfg t0 s o).status = .operational
          ∨ (checkOpenAI cfg t0 s o).status = .degraded)
        ↔ ∃ d, o = SdkOutcome.ok d) := by
  refine ⟨⟨doneAt - t0, ?_, ?_, ?_, ?_⟩, ?_, ⟨doneAt - t0, ?_, ?_, ?_, ?_⟩, ?_⟩
  · simp [runStreamCheck]
  · omega
  · simp only [runStreamCheck, degradedThresholdMs]
    split <;> simp <;> omega
  · simp only [runStreamCheck, degradedThresholdMs]
    split <;> simp <;> omega
  · intro o
    cases o with
    | streamOk d =>
        simp only [runStreamCheck, degradedThresholdMs]
        constructor
        · intro _; exact ⟨d, rfl⟩
        · intro _; split <;> simp
    | httpError st respAt body => simp [runStreamCheck]
    | emptyBody => simp [runStreamCheck]
    | thrown a m => simp [runStreamCheck]
  · simp [checkOpenAI]
  · omega
  · simp only [checkOpenAI, degradedThresholdMs]
    split <;> simp <;> omega
  · simp only [checkOpenAI, degradedThresholdMs]
    split <;> simp <;> omega
  · intro o
    cases o with
    | ok d =>
        simp only [checkOpenAI, degradedThresholdMs]
        constructor
        · intro _; exact ⟨d, rfl⟩
        · intro _; split <;> simp
    | thrown a m => simp [checkOpenAI]

/-- Sample JSON environment for witnesses: every parse fails. -/
def sampleEnv : JsEnv :=
  { parse := fun _ => none, stringify := fun _ => "" }

/-- Sample provider config for witnesses. -/
def sampleConfig : ProviderConfig :=
  { id := "a"
    name := "A"
    type := .openai
    endpoint := "https://api.openai.com/v1/chat/completions"
    model := "gpt-4o-mini"
    apiKey := "k" }

/-- Witness for claim C1 at a concrete monotone clock pair. -/
theorem claim_c1_witness :
    (∃ l, (runStreamCheck sampleEnv sampleConfig ("e") 0 ("t") (.streamOk 3000)).latencyMs
        = some l
      ∧ 0 ≤ l
      ∧ ((runStreamCheck sampleEnv sampleConfig ("e") 0 ("t") (.streamOk 3000)).status
          = .operational ↔ l ≤ 6000)
      ∧ ((runStreamCheck sampleEnv sampleConfig ("e") 0 ("t") (.streamOk 3000)).status
          = .degraded ↔ 6000 < l))
    ∧ (∀ o, ((runStreamCheck sampleEnv sampleConfig ("e") 0 ("t") o).status = .operational
          ∨ (runStreamCheck sampleEnv sampleConfig ("e") 0 ("t") o).status = .degraded)
        ↔ ∃ d, o = StreamOutcome.streamOk d)
    ∧ (∃ l, (checkOpenAI sampleConfig 0 ("t") (.ok 3000)).latencyMs = some l
      ∧ 0 ≤ l
      ∧ ((checkOpenAI sampleConfig 0 ("t") (.ok 3000)).status = .operational ↔ l ≤ 6000)
      ∧ ((checkOpenAI sampleConfig 0 ("t") (.ok 3000)).status = .degraded ↔ 6000 < l))
    ∧ (∀ o, ((checkOpenAI sampleConfig 0 ("t") o).status = .operational
          ∨ (checkOpenAI sampleConfig 0 ("t") o).status = .degraded)
        ↔ ∃ d, o = SdkOutcome.ok d) :=
  claim_c1 sampleEnv sampleConfig ("e") 0 3000 ("t") (by decide)

/-- Claim C2: every failure path of a provider check yields a well-formed
`failed` result with `latencyMs = null` — message `"请求超时"` ("request
timed out") for an abort, the underlying error text otherwise (with the
`"未知错误"` fallback when that text is absent or empty) — and
`runProviderChecks` returns exactly one result per config, never dropping
a config from the batch. -/
theorem claim_c2 (env : JsEnv) (cmp : String → String → Ordering)
    (configs : List ProviderConfig) (behave : ProviderConfig → ProviderRunModel) :
    ((runProviderChecks env cmp configs behave).length = configs.length)
    ∧ (∀ cfg ∈ configs, ∃ r ∈ runProviderChecks env cmp configs behave, r.id = cfg.id)
    ∧ (∀ cfg ep t0 s m,
        (runStreamCheck env cfg ep t0 s (.thrown true m)).status = .failed
        ∧ (runStreamCheck env cfg ep t0 s (.thrown true m)).latencyMs = none
        ∧ (runStreamCheck env cfg ep t0 s (.thrown true m)).message = .str "请求超时")
    ∧ (∀ cfg ep t0 s m, m ≠ "" →
        (runStreamCheck env cfg ep t0 s (.thrown false (some m))).status = .failed
        ∧ (runStreamCheck env cfg ep t0 s (.thrown false (some m))).latencyMs = none
        ∧ (runStreamCheck env cfg ep t0 s (.thrown false (some m))).message = .str m)
    ∧ (∀ cfg ep t0 s,
        (runStreamCheck env cfg ep t0 s .emptyBody).status = .failed
        ∧ (runStreamCheck env cfg ep t0 s .emptyBody).latencyMs = none) := by
  refine ⟨?_, ?_, ?_, ?_, ?_⟩
  · unfold runProviderChecks
    rw [(List.mergeSort_perm _ _).length_eq, List.length_map]
  · intro cfg hcfg
    refine ⟨runOneProviderCheck env behave cfg, ?_, runOneProviderCheck_id env behave cfg⟩
    unfold runProviderChecks
    exact (List.mergeSort_perm _ _).mem_iff.mpr (List.mem_map_of_mem _ hcfg)
  · intro cfg ep t0 s m
    exact ⟨rfl, rfl, rfl⟩
  · intro cfg ep t0 s m hm
    refine ⟨rfl, rfl, ?_⟩
    simp [runStreamCheck, strOrElse, hm]
  · intro cfg ep t0 s
    exact ⟨rfl, rfl⟩

/-- Witness for claim C2 on a concrete one-config batch. -/
theorem claim_c2_witness :
    ((runProviderChecks sampleEnv compare [sampleConfig]
        (fun _ => .threw ("t") none)).length = 1)
    ∧ (∃ r ∈ runProviderChecks sampleEnv compare [sampleConfig]
        (fun _ => .threw ("t") none), r.id = sampleConfig.id)
    ∧ ((runStreamCheck sampleEnv sampleConfig ("e") 0 ("t")
        (.thrown false (some "boom"))).message = .str "boom") := by
  have h := claim_c2 sampleEnv compare [sampleConfig] (fun _ => .threw ("t") none)
  refine ⟨h.1, h.2.1 sampleConfig (by simp), ?_⟩
  exact (h.2.2.2.1 sampleConfig ("e") 0 ("t") ("boom") (by decide)).2.2

/-- The length of a JavaScript string truncation `body.slice(0, 280)` is at
most 280. -/
theorem take280_length_le (s : String) : (s.take 280).length ≤ 280 := by
  rw [String.take_eq]
  show (s.data.take 280).length ≤ 280
  rw [List.length_take]
  omega

/-- The truncation of a nonempty JavaScript string is nonempty. -/
theorem take280_ne_empty (s : String) (h : s ≠ "") : s.take 280 ≠ "" := by
  rw [String.take_eq]
  intro hc
  have hdata : s.data.take 280 = [] := congrArg String.data hc
  rw [List.take_eq_nil_iff] at hdata
  rcases hdata with h280 | hnil
  · exact absurd h280 (by decide)
  · exact h (String.ext hnil)

/-- An error body that parses as JSON but has no truthy `error.message`
field: `{"message":"oops"}`. -/
def bodyNoErrMsg : String := "\x7b\"message\":\"oops\"\x7d"

/-- JSON environment agreeing with `JSON.parse` on `bodyNoErrMsg` (a valid
JSON object with a single `message` field) and failing on everything else
exercised here. -/
def sampleEnvC5 : JsEnv :=
  { parse := fun s =>
      if s = bodyNoErrMsg then some (.obj [(("message"), .str "oops")]) else none
    stringify := fun _ => "" }

/-- Claim C5 counterexample: on a non-2xx response whose body is the JSON
object `{"message":"oops"}` (which parses but carries no `error.message`
field), the code returns the `message` field `"oops"`, not the truncated
raw body that the claim prescribes for this case. -/
theorem claim_c5_counterexample :
    (runStreamCheck sampleEnvC5 sampleConfig ("e") 0 ("t")
        (.httpError 429 100 bodyNoErrMsg)).message = Js.str "oops"
    ∧ Js.str "oops" ≠ Js.str (bodyNoErrMsg.take 280) := by
  constructor
  · have hparse : sampleEnvC5.parse bodyNoErrMsg
        = some (Js.obj [(("message"), Js.str "oops")]) := by
      show ite (bodyNoErrMsg = bodyNoErrMsg)
        (some (Js.obj [(("message"), Js.str "oops")])) none
        = some (Js.obj [(("message"), Js.str "oops")])
      exact if_pos rfl
    have hne : bodyNoErrMsg ≠ "" := by decide
    show jsOrElse (some (extractMessage sampleEnvC5 bodyNoErrMsg))
      (.str ("HTTP " ++ toString 429)) = Js.str "oops"
    rw [extractMessage, if_neg hne, hparse]
    rfl
  · rw [String.take_eq]
    intro h
    injection h with h2
    have h3 : ("oops" : String).data = bodyNoErrMsg.data.take 280 :=
      congrArg String.data h2
    exact absurd h3 (by decide)

/-- Claim C5, amended: a non-2xx response yields `status = failed` with
`latencyMs` the elapsed time to the error; the message is the body's JSON
`error.message` field when the body parses with that field truthy; when the
body does not parse as JSON it is the raw body truncated to at most 280
characters; when the body parses without a truthy `error.message` the code
instead falls back to `error`, then `message`, then the JSON
re-serialization; an empty body yields `"HTTP <status>"`. -/
theorem claim_c5_amended (env : JsEnv) (cfg : ProviderConfig) (ep : String)
    (t0 : Int) (s : String) (st : Nat) (respAt : Int) (body : String)
    (h : t0 ≤ respAt) :
    (runStreamCheck env cfg ep t0 s (.httpError st respAt body)).status = .failed
    ∧ (runStreamCheck env cfg ep t0 s (.httpError st respAt body)).latencyMs
        = some (respAt - t0)
    ∧ 0 ≤ respAt - t0
    ∧ (∀ p v, body ≠ "" → env.parse body = some p →
        jsGet2 p ("error") ("message") = some v → jsTruthy v →
        (runStreamCheck env cfg ep t0 s (.httpError st respAt body)).message = v)
    ∧ (body ≠ "" → env.parse body = none →
        (runStreamCheck env cfg ep t0 s (.httpError st respAt body)).message
          = .str (body.take 280)
        ∧ (body.take 280).length ≤ 280)
    ∧ (body = "" →
        (runStreamCheck env cfg ep t0 s (.httpError st respAt body)).message
          = .str ("HTTP " ++ toString st)) := by
  refine ⟨rfl, rfl, by omega, ?_, ?_, ?_⟩
  · intro p v hne hp hv htr
    have hvstr : jsTruthy v = true := htr
    simp [runStreamCheck, extractMessage, hne, hp, hv, jsOrElse, hvstr]
  · intro hne hp
    refine ⟨?_, take280_length_le body⟩
    simp [runStreamCheck, extractMessage, hne, hp, jsOrElse, jsTruthy]
    intro hc
    exact absurd hc (take280_ne_empty body hne)
  · intro he
    subst he
    simp [runStreamCheck, extractMessage, jsOrElse, jsTruthy]

/-- Witness for the amended claim C5 at a concrete non-JSON body. -/
theorem claim_c5_amended_witness :
    (runStreamCheck sampleEnv sampleConfig ("e") 0 ("t")
        (.httpError 429 100 ("oops"))).status = .failed
    ∧ (runStreamCheck sampleEnv sampleConfig ("e") 0 ("t")
        (.httpError 429 100 ("oops"))).message = .str (("oops" : String).take 280) := by
  have h := claim_c5_amended sampleEnv sampleConfig ("e") 0 ("t") 429 100 ("oops")
    (by decide)
  exact ⟨h.1, (h.2.2.2.2.1 (by decide) rfl).1⟩

/-- `splitNl` always produces at least one segment. -/
theorem splitNl_ne_nil : ∀ s : List Char, splitNl s ≠ []
  | [] => by simp [splitNl]
  | c :: rest => by
      by_cases h : c = '\n'
      · simp [splitNl, h]
      · simp only [splitNl, if_neg h]
        cases hs : splitNl rest with
        | nil => simp
        | cons a l => simp

/-- No segment produced by `splitNl` contains a newline. -/
theorem splitNl_no_newline : ∀ s : List Char, ∀ l ∈ splitNl s, '\n' ∉ l
  | [] => by simp [splitNl]
  | c :: rest => by
      by_cases h : c = '\n'
      · intro l hl
        simp only [splitNl, if_pos h] at hl
        rcases List.mem_cons.mp hl with rfl | hl'
        · simp
        · exact splitNl_no_newline rest l hl'
      · intro l hl
        simp only [splitNl, if_neg h] at hl
        cases hs : splitNl rest with
        | nil => exact absurd hs (splitNl_ne_nil rest)
        | cons a t =>
            rw [hs] at hl
            rcases List.mem_cons.mp hl with rfl | hl'
            · intro hmem
              rcases List.mem_cons.mp hmem with h' | h'
              · exact h h'.symm
              · exact splitNl_no_newline rest a (hs ▸ List.mem_cons_self a t) h'
            · exact splitNl_no_newline rest l (hs ▸ List.mem_cons_of_mem a hl')

/-- A newline-free string is one single segment. -/
theorem splitNl_of_no_newline : ∀ s : List Char, '\n' ∉ s → splitNl s = [s]
  | [], _ => rfl
  | c :: rest, h => by
      have hc : ¬ c = '\n' := fun e => h (e ▸ List.mem_cons_self c rest)
      have ih := splitNl_of_no_newline rest (fun m => h (List.mem_cons_of_mem c m))
      simp only [splitNl, if_neg hc, ih]

/-- The trailing (incomplete) segment of a split. -/
def lastSeg (x : List Char) : List Char :=
  ((splitNl x).getLast?).getD []

/-- The trailing segment contains no newline. -/
theorem lastSeg_no_newline (x : List Char) : '\n' ∉ lastSeg x := by
  unfold lastSeg
  cases hs : (splitNl x).getLast? with
  | none => simp
  | some a =>
      simp only [Option.getD_some]
      exact splitNl_no_newline x a (List.mem_of_mem_getLast? hs)

/-- Prepend a partial segment to the first segment of a split. -/
def mergeFirst (p : List Char) : List (List Char) → List (List Char)
  | [] => [p]
  | h :: t => (p ++ h) :: t

/-- `mergeFirst` never yields the empty list. -/
theorem mergeFirst_ne_nil (p : List Char) : ∀ l, mergeFirst p l ≠ []
  | [] => by simp [mergeFirst]
  | h :: t => by simp [mergeFirst]

/-- Splitting a concatenation: the segments of `x` except its trailing one,
then the segments of `y` with `x`'s trailing segment merged into the first. -/
theorem splitNl_append : ∀ x y : List Char,
    splitNl (x ++ y) = (splitNl x).dropLast ++ mergeFirst (lastSeg x) (splitNl y)
  | [], y => by
      cases hs : splitNl y with
      | nil => exact absurd hs (splitNl_ne_nil y)
      | cons a t => simp [splitNl, mergeFirst, lastSeg, hs]
  | c :: x', y => by
      have ih := splitNl_append x' y
      by_cases hc : c = '\n'
      · subst hc
        show splitNl ('\n' :: (x' ++ y))
          = (splitNl ('\n' :: x')).dropLast
            ++ mergeFirst (lastSeg ('\n' :: x')) (splitNl y)
        simp only [splitNl, if_pos rfl, ih]
        cases hs : splitNl x' with
        | nil => exact absurd hs (splitNl_ne_nil x')
        | cons a t =>
            cases t with
            | nil =>
                have hl : (splitNl ('\n' :: x')).getLast?.getD ([] : List Char) = a := by
                  simp [splitNl, hs]
                simp [lastSeg, hl, hs]
            | cons b t' =>
                have hl : (splitNl ('\n' :: x')).getLast?.getD ([] : List Char)
                    = ((b :: t').getLast?).getD [] := by
                  simp [splitNl, hs, List.getLast?_cons_cons]
                simp [lastSeg, hl, hs, List.getLast?_cons_cons]
      · show splitNl (c :: (x' ++ y))
          = (splitNl (c :: x')).dropLast
            ++ mergeFirst (lastSeg (c :: x')) (splitNl y)
        simp only [splitNl, if_neg hc, ih]
        cases hs : splitNl x' with
        | nil => exact absurd hs (splitNl_ne_nil x')
        | cons a t =>
            cases t with
            | nil =>
                have hl : (splitNl (c :: x')).getLast?.getD ([] : List Char) = c :: a := by
                  simp [splitNl, hs, hc]
                cases hy : splitNl y with
                | nil => exact absurd hy (splitNl_ne_nil y)
                | cons b u =>
                    simp [lastSeg, hl, hs, hy, mergeFirst]
            | cons b t' =>
                have hl : (splitNl (c :: x')).getLast?.getD ([] : List Char)
                    = ((b :: t').getLast?).getD [] := by
                  simp [splitNl, hs, hc, List.getLast?_cons_cons]
                simp [lastSeg, hl, hs, List.getLast?_cons_cons]

/-- Splitting a trailing segment extended by `y` merges it into `y`'s first
segment. -/
theorem splitNl_lastSeg_append (x y : List Char) :
    splitNl (lastSeg x ++ y) = mergeFirst (lastSeg x) (splitNl y) := by
  have hx : splitNl (lastSeg x) = [lastSeg x] :=
    splitNl_of_no_newline (lastSeg x) (lastSeg_no_newline x)
  have h2 : lastSeg (lastSeg x) = lastSeg x := by
    show ((splitNl (lastSeg x)).getLast?).getD [] = lastSeg x
    rw [hx]
    rfl
  rw [splitNl_append (lastSeg x) y, hx, h2]
  simp

/-- The complete lines of a concatenation: the complete lines of `x`, then
the complete lines of `x`'s trailing segment extended by `y`. -/
theorem dropLast_splitNl_append (x y : List Char) :
    (splitNl (x ++ y)).dropLast
      = (splitNl x).dropLast ++ (splitNl (lastSeg x ++ y)).dropLast := by
  rw [splitNl_append x y,
    List.dropLast_append_of_ne_nil ((splitNl x).dropLast)
      (mergeFirst_ne_nil (lastSeg x) (splitNl y)),
    ← splitNl_lastSeg_append]

/-- The Anthropic chunk loop computes the fold of the line handler over the
complete lines of the concatenated stream (provided the starting buffer is
newline-free), regardless of how the stream is cut into chunks. -/
theorem anthropicChunks_flatten (aext : List Char → Option (List Char × List Char)) :
    ∀ (cs : List (List Char)) (acc buf : List Char), '\n' ∉ buf →
      anthropicChunks aext cs acc buf
        = ((splitNl (buf ++ cs.flatten)).dropLast).foldl (anthropicLineStep aext) acc
  | [], acc, buf, hb => by
      simp [anthropicChunks, splitNl_of_no_newline buf hb]
  | c :: cs, acc, buf, hb => by
      have ih := anthropicChunks_flatten aext cs
        ((splitNl (buf ++ c)).dropLast.foldl (anthropicLineStep aext) acc)
        (lastSeg (buf ++ c)) (lastSeg_no_newline (buf ++ c))
      show anthropicChunks aext cs
          ((splitNl (buf ++ c)).dropLast.foldl (anthropicLineStep aext) acc)
          (((splitNl (buf ++ c)).getLast?).getD [])
        = ((splitNl (buf ++ (c :: cs).flatten)).dropLast).foldl (anthropicLineStep aext) acc
      rw [show (((splitNl (buf ++ c)).getLast?).getD [] : List Char)
          = lastSeg (buf ++ c) from rfl, ih]
      rw [show buf ++ (c :: cs).flatten = (buf ++ c) ++ cs.flatten by
        simp [List.append_assoc]]
      rw [dropLast_splitNl_append (buf ++ c) cs.flatten, List.foldl_append]

/-- Claim C4, amended: the Anthropic framing parser is insensitive to how
the byte stream is cut into chunks — any two chunkings of the same stream
(in particular, the stream as one single chunk) yield the same accumulated
text.  The OpenAI and Gemini parsers do not have this property (see the
counterexample): the OpenAI parser keeps no buffer between chunks, and the
Gemini parser drops the newline separator when a chunk boundary falls
directly after it. -/
theorem claim_c4_amended (aext : List Char → Option (List Char × List Char))
    (cs ds : List (List Char)) (h : cs.flatten = ds.flatten) :
    parseAnthropicStream aext cs = parseAnthropicStream aext ds := by
  unfold parseAnthropicStream
  rw [anthropicChunks_flatten aext cs [] [] (by simp),
    anthropicChunks_flatten aext ds [] [] (by simp), h]

/-- Witness for the amended claim C4: a stream cut mid-line versus delivered
whole. -/
theorem claim_c4_amended_witness :
    parseAnthropicStream (fun _ => none) [("data: ab\nda").data ++ ("ta: c\n").data]
      = parseAnthropicStream (fun _ => none) [("data: ab\nda").data, ("ta: c\n").data] :=
  claim_c4_amended (fun _ => none) _ _ (by simp)

/-- A complete Gemini stream object `{"candidates":[{"content":{"parts":
[{"text":"a"}]}}]}`. -/
def gemA : List Char :=
  ("\x7b\"candidates\":[\x7b\"content\":\x7b\"parts\":[\x7b\"text\":\"a\"\x7d]\x7d\x7d]\x7d").data

/-- A second Gemini stream object, carrying text `"b"`. -/
def gemB : List Char :=
  ("\x7b\"candidates\":[\x7b\"content\":\x7b\"parts\":[\x7b\"text\":\"b\"\x7d]\x7d\x7d]\x7d").data

/-- Gemini text extraction agreeing with `JSON.parse` plus
`candidates[0].content.parts[0].text` on the two well-formed objects above;
every other fragment exercised by the counterexample (the empty string, the
two objects glued without a separator) is invalid JSON and yields `none`. -/
def gextSample : List Char → Option (List Char) :=
  fun s => if s = gemA then some (("a").data)
    else if s = gemB then some (("b").data) else none

/-- The OpenAI event payload `{"choices":[{"delta":{"content":"hi"}}]}`. -/
def opPayload : List Char :=
  ("\x7b\"choices\":[\x7b\"delta\":\x7b\"content\":\"hi\"\x7d\x7d]\x7d").data

/-- OpenAI delta extraction agreeing with `JSON.parse` plus
`choices[0].delta.content` on `opPayload`; other fragments exercised by the
counterexample are invalid JSON and yield `none`. -/
def oextSample : List Char → Option (List Char) :=
  fun s => if s = opPayload then some (("hi").data) else none

/-- Claim C4 counterexample: re-chunking the same byte stream changes the
output of the Gemini parser (a chunk boundary directly after a newline) and
of the OpenAI parser (a chunk boundary inside a `data:` line), refuting the
claimed chunking-invariance for those two parsers. -/
theorem claim_c4_counterexample :
    parseGeminiStream gextSample [gemA ++ ('\n' :: gemB)]
        ≠ parseGeminiStream gextSample [gemA ++ ['\n'], gemB]
    ∧ parseOpenAIStream oextSample [sseDataTag ++ opPayload ++ ['\n']]
        ≠ parseOpenAIStream oextSample [sseDataTag, opPayload ++ ['\n']] := by
  constructor
  · decide
  · decide

/-- A list is a (boolean) prefix of itself followed by anything. -/
theorem isPrefixOf_append_self (p q : List Char) : p.isPrefixOf (p ++ q) = true := by
  rw [List.isPrefixOf_iff_prefix]
  exact List.prefix_append p q

/-- The terminator line `"data: [DONE]\n"` as a raw chunk fragment. -/
def doneLine : List Char := sseDataTag ++ doneMarker ++ ['\n']

/-- Processing a chunk consisting of the terminator line immediately ends
the line loop with the accumulator unchanged. -/
theorem openAILines_doneLine (ext : List Char → Option (List Char)) (acc : List Char) :
    openAILines ext ((splitNl doneLine).filter (fun l => !(trimChars l).isEmpty)) acc
      = (acc, true) := rfl

/-- Once the `"[DONE]"` terminator chunk is reached, everything after it is
ignored: the stream with trailing chunks `ds` parses exactly like the stream
cut off at the terminator. -/
theorem openAIChunks_done_cut (ext : List Char → Option (List Char)) :
    ∀ (cs ds : List (List Char)) (acc : List Char),
      openAIChunks ext (cs ++ doneLine :: ds) acc
        = openAIChunks ext (cs ++ [doneLine]) acc
  | [], ds, acc => rfl
  | c :: cs, ds, acc => by
      simp only [List.cons_append, openAIChunks]
      rcases h : openAILines ext ((splitNl c).filter (fun l => !(trimChars l).isEmpty)) acc
        with ⟨acc2, done⟩
      cases done with
      | true => rfl
      | false => exact openAIChunks_done_cut ext cs ds acc2

/-- Claim C9: the framing parsers are total functions that skip unusable
fragments rather than failing:

* an OpenAI `data:` line whose payload is not `"[DONE]"` and does not parse
  leaves the accumulator unchanged and does not stop the parse;
* the OpenAI parser ignores the entire remainder of the stream after a
  `"data: [DONE]"` terminator chunk;
* an Anthropic `data:` line is skipped when its payload does not parse, and
  a parsed event contributes its text exactly when its `type` is
  `"content_block_delta"`; non-`data:` lines are skipped;
* a buffered Gemini segment that does not parse leaves the accumulator
  unchanged. -/
theorem claim_c9 :
    (∀ (ext : List Char → Option (List Char)) (acc payload : List Char),
      payload ≠ doneMarker → ext payload = none →
      openAILineStep ext acc (sseDataTag ++ payload) = (acc, false))
    ∧ (∀ (ext : List Char → Option (List Char)) (cs ds : List (List Char)),
      parseOpenAIStream ext (cs ++ doneLine :: ds)
        = parseOpenAIStream ext (cs ++ [doneLine]))
    ∧ (∀ (aext : List Char → Option (List Char × List Char)) (acc payload : List Char),
      aext payload = none →
      anthropicLineStep aext acc (sseDataTag ++ payload) = acc)
    ∧ (∀ (aext : List Char → Option (List Char × List Char)) (acc payload ty txt : List Char),
      aext payload = some (ty, txt) →
      anthropicLineStep aext acc (sseDataTag ++ payload)
        = (if ty = ("content_block_delta").data then acc ++ txt else acc))
    ∧ (∀ (aext : List Char → Option (List Char × List Char)) (acc line : List Char),
      sseDataTag.isPrefixOf line = false → anthropicLineStep aext acc line = acc)
    ∧ (∀ (gext : List Char → Option (List Char)) (acc obj : List Char),
      gext obj = none → geminiObjStep gext acc obj = acc) := by
  refine ⟨?_, ?_, ?_, ?_, ?_, ?_⟩
  · intro ext acc payload hd hext
    unfold openAILineStep
    rw [isPrefixOf_append_self]
    simp only [if_true]
    rw [show (sseDataTag ++ payload).drop 6 = payload from List.drop_left sseDataTag payload,
      if_neg hd, hext]
  · intro ext cs ds
    exact openAIChunks_done_cut ext cs ds []
  · intro aext acc payload hext
    unfold anthropicLineStep
    rw [isPrefixOf_append_self]
    simp only [if_true]
    rw [show (sseDataTag ++ payload).drop 6 = payload from List.drop_left sseDataTag payload,
      hext]
  · intro aext acc payload ty txt hext
    unfold anthropicLineStep
    rw [isPrefixOf_append_self]
    simp only [if_true]
    rw [show (sseDataTag ++ payload).drop 6 = payload from List.drop_left sseDataTag payload,
      hext]
  · intro aext acc line hline
    unfold anthropicLineStep
    rw [hline]
    simp
  · intro gext acc obj hext
    unfold geminiObjStep
    rw [hext]

/-- Witness for claim C9 at concrete fragments. -/
theorem claim_c9_witness :
    (openAILineStep oextSample [] (sseDataTag ++ ("x").data) = ([], false))
    ∧ (parseOpenAIStream oextSample ([sseDataTag ++ opPayload ++ ['\n']] ++ doneLine :: [opPayload])
        = parseOpenAIStream oextSample ([sseDataTag ++ opPayload ++ ['\n']] ++ [doneLine]))
    ∧ (anthropicLineStep (fun _ => none) (("a").data) (sseDataTag ++ ("x").data) = ("a").data)
    ∧ (geminiObjStep gextSample (("a").data) (("x").data) = ("a").data) := by
  have h := claim_c9
  refine ⟨?_, h.2.1 oextSample [sseDataTag ++ opPayload ++ ['\n']] [opPayload], ?_, ?_⟩
  · exact h.1 oextSample [] (("x").data) (by decide) (by decide)
  · exact h.2.2.1 (fun _ => none) (("a").data) (("x").data) rfl
  · exact h.2.2.2.2.2 gextSample (("a").data) (("x").data) (by decide)

/-- Membership in a `take` prefix of a duplicate-free list is membership at
an index below the cut. -/
theorem mem_take_iff_indexOf_lt {α : Type} [DecidableEq α] :
    ∀ (l : List α) (a : α) (k : Nat), l.Nodup → a ∈ l →
      (a ∈ l.take k ↔ l.indexOf a < k)
  | [], a, _, _, ha => absurd ha (List.not_mem_nil a)
  | x :: l', a, 0, _, _ => by simp
  | x :: l', a, k + 1, hnd, ha => by
      by_cases hax : a = x
      · subst hax
        simp [List.indexOf_cons_self]
      · have ha' : a ∈ l' := by
          rcases List.mem_cons.mp ha with h | h
          · exact absurd h hax
          · exact h
        have ih := mem_take_iff_indexOf_lt l' a k (List.Nodup.of_cons hnd) ha'
        rw [List.take_succ_cons, List.indexOf_cons_ne l' (Ne.symm hax)]
        constructor
        · intro hmem
          rcases List.mem_cons.mp hmem with h | h
          · exact absurd h hax
          · exact Nat.succ_lt_succ (ih.mp h)
        · intro hlt
          exact List.mem_cons_of_mem x (ih.mpr (Nat.lt_of_succ_lt_succ hlt))

/-- The ranked partition of one config is a permutation of that config's
rows. -/
theorem rankedDesc_perm (rows : List HistoryRow) (c : String) :
    (rankedDesc rows c).Perm (rows.filter (fun r => r.configId == c)) :=
  List.mergeSort_perm _ _

/-- A duplicate-free table has a duplicate-free ranked partition. -/
theorem rankedDesc_nodup (rows : List HistoryRow) (c : String) (h : rows.Nodup) :
    (rankedDesc rows c).Nodup :=
  ((rankedDesc_perm rows c).nodup_iff).mpr (h.filter _)

/-- The ranked partition is sorted by `checked_at` descending. -/
theorem rankedDesc_sorted (rows : List HistoryRow) (c : String) :
    List.Pairwise (fun a b : HistoryRow => b.checkedAt ≤ a.checkedAt)
      (rankedDesc rows c) := by
  unfold rankedDesc
  refine List.Pairwise.imp ?_ (List.sorted_mergeSort ?_ ?_
    (rows.filter (fun r => r.configId == c)))
  · intro a b hab
    exact of_decide_eq_true hab
  · intro a b c h1 h2
    have h1' : b.checkedAt ≤ a.checkedAt := of_decide_eq_true h1
    have h2' : c.checkedAt ≤ b.checkedAt := of_decide_eq_true h2
    exact decide_eq_true (le_trans h2' h1')
  · intro a b
    rcases Int.le_total b.checkedAt a.checkedAt with h | h <;> simp [h]

/-- Membership in the pruned table: exactly the rows whose rank is within
the cap survive. -/
theorem mem_prune_iff (limit : Nat) (rows : List HistoryRow) (r : HistoryRow) :
    r ∈ prune_check_history limit rows ↔ r ∈ rows ∧ rowRank rows r ≤ limit := by
  unfold prune_check_history
  rw [List.mem_filter]
  simp

/-- Per config, the pruned table holds exactly the top-ranked `limit` rows. -/
theorem prune_filter_perm (limit : Nat) (rows : List HistoryRow) (c : String)
    (hnd : rows.Nodup) :
    ((prune_check_history limit rows).filter (fun r => r.configId == c)).Perm
      ((rankedDesc rows c).take limit) := by
  apply List.perm_of_nodup_nodup_toFinset_eq
  · exact (hnd.filter _).filter _
  · exact (List.take_sublist limit _).nodup (rankedDesc_nodup rows c hnd)
  · ext a
    simp only [List.mem_toFinset, List.mem_filter, mem_prune_iff]
    constructor
    · rintro ⟨⟨harows, hrank⟩, hcfg⟩
      have hcfg' : a.configId = c := by simpa using hcfg
      have has : a ∈ rankedDesc rows c :=
        (rankedDesc_perm rows c).mem_iff.mpr
          (List.mem_filter.mpr ⟨harows, by simp [hcfg']⟩)
      refine (mem_take_iff_indexOf_lt _ a limit (rankedDesc_nodup rows c hnd) has).mpr ?_
      have : rowRank rows a = (rankedDesc rows c).indexOf a + 1 := by
        unfold rowRank
        rw [hcfg']
      omega
    · intro hmem
      have has : a ∈ rankedDesc rows c := (List.take_sublist limit _).mem hmem
      have hfil : a ∈ rows.filter (fun r => r.configId == c) :=
        (rankedDesc_perm rows c).mem_iff.mp has
      have harows : a ∈ rows := (List.mem_filter.mp hfil).1
      have hcfg' : a.configId = c := by simpa using (List.mem_filter.mp hfil).2
      have hidx := (mem_take_iff_indexOf_lt _ a limit
        (rankedDesc_nodup rows c hnd) has).mp hmem
      have hrank : rowRank rows a = (rankedDesc rows c).indexOf a + 1 := by
        unfold rowRank
        rw [hcfg']
      exact ⟨⟨harows, by omega⟩, by simp [hcfg']⟩

/-- Per config, pruning keeps exactly `min limit total` rows. -/
theorem prune_count (limit : Nat) (rows : List HistoryRow) (c : String)
    (hnd : rows.Nodup) :
    ((prune_check_history limit rows).filter (fun r => r.configId == c)).length
      = min limit ((rows.filter (fun r => r.configId == c)).length) := by
  rw [(prune_filter_perm limit rows c hnd).length_eq, List.length_take,
    (rankedDesc_perm rows c).length_eq]

/-- Every surviving row is at least as recent as every deleted row of the
same config. -/
theorem prune_keeps_newest (limit : Nat) (rows : List HistoryRow)
    (hnd : rows.Nodup) :
    ∀ r ∈ prune_check_history limit rows, ∀ d ∈ rows,
      d ∉ prune_check_history limit rows → d.configId = r.configId →
      d.checkedAt ≤ r.checkedAt := by
  intro r hr d hd hdnot hcfg
  obtain ⟨hrrows, hrrank⟩ := (mem_prune_iff limit rows r).mp hr
  have hdrank : ¬ rowRank rows d ≤ limit :=
    fun hle => hdnot ((mem_prune_iff limit rows d).mpr ⟨hd, hle⟩)
  have hrs : r ∈ rankedDesc rows r.configId :=
    (rankedDesc_perm rows r.configId).mem_iff.mpr
      (List.mem_filter.mpr ⟨hrrows, by simp⟩)
  have hds : d ∈ rankedDesc rows r.configId :=
    (rankedDesc_perm rows r.configId).mem_iff.mpr
      (List.mem_filter.mpr ⟨hd, by simp [hcfg]⟩)
  have hir : (rankedDesc rows r.configId).indexOf r
      < (rankedDesc rows r.configId).length := List.indexOf_lt_length.mpr hrs
  have hid : (rankedDesc rows r.configId).indexOf d
      < (rankedDesc rows r.configId).length := List.indexOf_lt_length.mpr hds
  have hrankr : rowRank rows r = (rankedDesc rows r.configId).indexOf r + 1 := rfl
  have hrankd : rowRank rows d = (rankedDesc rows r.configId).indexOf d + 1 := by
    unfold rowRank
    rw [hcfg]
  have hlt : (rankedDesc rows r.configId).indexOf r
      < (rankedDesc rows r.configId).indexOf d := by omega
  have hpw := List.pairwise_iff_get.mp (rankedDesc_sorted rows r.configId)
    ⟨_, hir⟩ ⟨_, hid⟩ hlt
  rwa [List.indexOf_get, List.indexOf_get] at hpw

/-- Every joined output row carries the underlying history row's config id. -/
theorem joinConfig_configId (configs : List ConfigRow) (r : HistoryRow) :
    ∀ o ∈ joinConfig configs r, o.configId = r.configId := by
  intro o ho
  unfold joinConfig at ho
  rcases List.mem_map.mp ho with ⟨k, _, rfl⟩
  rfl

/-- With unique config ids, the join matches at most one config row. -/
theorem filter_id_length_le :
    ∀ (configs : List ConfigRow),
      ((configs.map (fun k => k.id)).Nodup) → ∀ v : String,
      (configs.filter (fun k => k.id == v)).length ≤ 1
  | [], _, _ => by simp
  | k :: cs, hnd, v => by
      rw [List.filter_cons]
      by_cases h : k.id = v
      · have hrest : cs.filter (fun k' => k'.id == v) = [] := by
          rw [List.filter_eq_nil_iff]
          intro k' hk'
          simp only [beq_iff_eq]
          intro he
          have hmem : k'.id ∈ cs.map (fun q => q.id) :=
            List.mem_map_of_mem (fun q => q.id) hk'
          rw [he, ← h] at hmem
          exact (List.nodup_cons.mp hnd).1 hmem
        simp [h, hrest]
      · have hb : (k.id == v) = false := by simp [h]
        rw [hb]
        simp only [Bool.false_eq_true, if_false]
        exact filter_id_length_le cs (List.nodup_cons.mp hnd).2 v

/-- Joining and filtering to one config id yields at most one output row per
underlying history row of that config, and none for other configs. -/
theorem flatMap_join_filter_le (configs : List ConfigRow)
    (hndCfg : ((configs.map (fun k => k.id)).Nodup)) (c : String) :
    ∀ l : List HistoryRow,
      ((l.flatMap (joinConfig configs)).filter (fun o => o.configId == c)).length
        ≤ (l.filter (fun r => r.configId == c)).length
  | [] => by simp
  | r :: l => by
      rw [List.flatMap_cons, List.filter_append, List.length_append, List.filter_cons]
      have ih := flatMap_join_filter_le configs hndCfg c l
      by_cases h : r.configId = c
      · have h1 : ((joinConfig configs r).filter (fun o => o.configId == c)).length ≤ 1 := by
          calc ((joinConfig configs r).filter (fun o => o.configId == c)).length
              ≤ (joinConfig configs r).length := List.length_filter_le _ _
            _ ≤ 1 := by
                unfold joinConfig
                rw [List.length_map]
                exact filter_id_length_le configs hndCfg r.configId
        simp only [h, beq_self_eq_true, if_true, List.length_cons]
        omega
      · have h0 : ((joinConfig configs r).filter (fun o => o.configId == c)).length = 0 := by
          rw [List.length_eq_zero, List.filter_eq_nil_iff]
          intro o ho
          simp only [beq_iff_eq]
          rw [joinConfig_configId configs r o ho]
          exact h
        have hb : (r.configId == c) = false := by simp [h]
        rw [hb]
        simp only [Bool.false_eq_true, if_false]
        omega

/-- The target filter preserves freedom from duplicates. -/
theorem targetFiltered_nodup (targets : Option (List String))
    (rows : List HistoryRow) (hnd : rows.Nodup) : (targetFiltered targets rows).Nodup := by
  unfold targetFiltered
  cases targets with
  | none => exact hnd
  | some ts => exact hnd.filter _

/-- `get_recent_check_history` returns at most `limit_per_config` rows per
config. -/
theorem get_recent_count_le (limit : Nat) (targets : Option (List String))
    (configs : List ConfigRow) (rows : List HistoryRow) (c : String)
    (hnd : rows.Nodup) (hndCfg : ((configs.map (fun k => k.id)).Nodup)) :
    ((get_recent_check_history limit targets configs rows).filter
      (fun o => o.configId == c)).length ≤ limit := by
  unfold get_recent_check_history
  rw [((List.mergeSort_perm _ _).filter _).length_eq]
  calc ((((targetFiltered targets rows).filter
          (fun r => rowRank (targetFiltered targets rows) r ≤ limit)).flatMap
          (joinConfig configs)).filter (fun o => o.configId == c)).length
      ≤ (((targetFiltered targets rows).filter
          (fun r => rowRank (targetFiltered targets rows) r ≤ limit)).filter
          (fun r => r.configId == c)).length :=
        flatMap_join_filter_le configs hndCfg c _
    _ = min limit (((targetFiltered targets rows).filter
          (fun r => r.configId == c)).length) :=
        prune_count limit (targetFiltered targets rows) c
          (targetFiltered_nodup targets rows hnd)
    _ ≤ limit := Nat.min_le_left _ _

/-- Claim C6: pruning a (possibly just-appended) history table with a
per-config cap keeps, for every provider, exactly the `min cap total`
top-ranked rows — a row survives iff its `checked_at`-descending rank is
within the cap, and every surviving row is at least as recent as every
deleted row of the same provider — and `get_recent_check_history` returns
at most `limit_per_config` rows per config.  (The claim's cap of 60 is the
instance `limit = 60`.) -/
theorem claim_c6 (limit : Nat) (rows : List HistoryRow) (c : String)
    (targets : Option (List String)) (configs : List ConfigRow)
    (hnd : rows.Nodup) (hndCfg : ((configs.map (fun k => k.id)).Nodup)) :
    (((prune_check_history limit rows).filter (fun r => r.configId == c)).length
        = min limit ((rows.filter (fun r => r.configId == c)).length))
    ∧ (∀ r ∈ rows, (r ∈ prune_check_history limit rows ↔ rowRank rows r ≤ limit))
    ∧ (∀ r ∈ prune_check_history limit rows, ∀ d ∈ rows,
        d ∉ prune_check_history limit rows → d.configId = r.configId →
        d.checkedAt ≤ r.checkedAt)
    ∧ (((get_recent_check_history limit targets configs rows).filter
        (fun o => o.configId == c)).length ≤ limit) := by
  refine ⟨prune_count limit rows c hnd, ?_, prune_keeps_newest limit rows hnd,
    get_recent_count_le limit targets configs rows c hnd hndCfg⟩
  intro r hr
  rw [mem_prune_iff]
  exact ⟨fun h => h.2, fun h => ⟨hr, h⟩⟩

/-- Two sample history rows of the same provider. -/
def rowOld : HistoryRow :=
  { rowId := 1, configId := "a", status := "operational", latencyMs := some 100
    pingLatencyMs := none, checkedAt := 10, message := "ok" }

/-- A newer sample history row. -/
def rowNew : HistoryRow :=
  { rowId := 2, configId := "a", status := "operational", latencyMs := some 120
    pingLatencyMs := none, checkedAt := 20, message := "ok" }

/-- Witness for claim C6 at a concrete two-row table with cap 60. -/
theorem claim_c6_witness :
    (((prune_check_history 60 [rowOld, rowNew]).filter
        (fun r => r.configId == "a")).length
      = min 60 (([rowOld, rowNew].filter (fun r => r.configId == "a")).length))
    ∧ (((get_recent_check_history 60 none [] [rowOld, rowNew]).filter
        (fun o => o.configId == "a")).length ≤ 60) := by
  have h := claim_c6 60 [rowOld, rowNew] ("a") none [] (by decide) (by decide)
  exact ⟨h.1, h.2.2.2⟩

/-- A dispatch either leaves the entry unchanged, or installs a fresh
in-flight hand when none existed and the cache was stale or absent. -/
theorem refreshDispatch_state {H : Type} (iv : Int) (ac : Nat) (now : Int)
    (newId : Nat) (st : CacheEntry H) :
    (refreshDispatch iv ac now newId st).2 = st
    ∨ ((refreshDispatch iv ac now newId st).2 = { st with inflight := some (newId, now) }
        ∧ st.inflight = none
        ∧ (st.history = none ∨ iv ≤ now - st.lastPingAt)) := by
  unfold refreshDispatch
  by_cases hac : ac = 0
  · rw [if_pos hac]
    exact Or.inl rfl
  · rw [if_neg hac]
    cases hh : st.history with
    | some h =>
        by_cases hfresh : now - st.lastPingAt < iv
        · simp only [hfresh, if_true]
          exact Or.inl trivial
        · simp only [hfresh, if_false]
          cases hin : st.inflight with
          | some p =>
              rcases p with ⟨q, u⟩
              exact Or.inl rfl
          | none => exact Or.inr ⟨rfl, rfl, Or.inr (by omega)⟩
    | none =>
        cases hin : st.inflight with
        | some p =>
            rcases p with ⟨q, u⟩
            exact Or.inl rfl
        | none => exact Or.inr ⟨rfl, rfl, Or.inl rfl⟩

/-- One event step preserves the cache-entry invariant. -/
theorem cacheInv_step {H : Type} (iv : Int) (ac : Nat) (st : CacheEntry H)
    (ev : CacheEvent H) (hInv : CacheInv iv st) :
    CacheInv iv (cacheStep iv ac st ev) := by
  cases ev with
  | call now newId =>
      show CacheInv iv (refreshDispatch iv ac now newId st).2
      rcases refreshDispatch_state iv ac now newId st with h | ⟨h, _, hcond⟩
      · rw [h]; exact hInv
      · rw [h]
        intro p t hpt
        simp only [Option.some_inj] at hpt
        cases hpt
        exact hcond
  | complete h doneAt =>
      show CacheInv iv (completeInflight st h doneAt)
      unfold completeInflight
      cases hin : st.inflight with
      | some p => intro q u hqu; simp at hqu
      | none => exact hInv

/-- The invariant holds in every state reachable from a fresh entry. -/
theorem cacheInv_run {H : Type} (iv : Int) (ac : Nat) :
    ∀ (evs : List (CacheEvent H)) (st : CacheEntry H), CacheInv iv st →
      CacheInv iv (cacheRun iv ac st evs)
  | [], st, h => h
  | ev :: evs, st, h =>
      cacheInv_run iv ac evs (cacheStep iv ac st ev) (cacheInv_step iv ac st ev h)

/-- While a refresh is in flight (in any reachable state), a later call
awaits exactly that promise, mutates nothing and starts no probe. -/
theorem refreshDispatch_awaits {H : Type} (iv : Int) (ac : Nat) (now : Int)
    (newId : Nat) (st : CacheEntry H) (p : Nat) (t : Int) (hac : ac ≠ 0)
    (hInv : CacheInv iv st) (hin : st.inflight = some (p, t)) (ht : t ≤ now) :
    refreshDispatch iv ac now newId st = (.awaitInflight p, st) := by
  unfold refreshDispatch
  rw [if_neg hac]
  cases hh : st.history with
  | some h =>
      rcases hInv p t hin with hnone | hstale
      · rw [hh] at hnone
        exact absurd hnone (by simp)
      · have hnf : ¬ now - st.lastPingAt < iv := by omega
        simp only [hnf, if_false, hin]
  | none => simp only [hin]

/-- A cached history younger than the poll interval is returned as-is, with
no probe and no mutation. -/
theorem refreshDispatch_cached {H : Type} (iv : Int) (ac : Nat) (now : Int)
    (newId : Nat) (st : CacheEntry H) (h : H) (hac : ac ≠ 0)
    (hh : st.history = some h) (hfresh : now - st.lastPingAt < iv) :
    refreshDispatch iv ac now newId st = (.returnCached h, st) := by
  unfold refreshDispatch
  rw [if_neg hac, hh]
  simp only [hfresh, if_true]

/-- Back-to-back calls on an entry with no cached history and an in-flight
refresh start no probe at all. -/
theorem concurrentCalls_inflight_probes {H : Type} (iv : Int) (ac : Nat)
    (hac : ac ≠ 0) :
    ∀ (calls : List (Int × Nat)) (st : CacheEntry H) (p : Nat) (t : Int),
      st.history = none → st.inflight = some (p, t) →
      (concurrentCalls iv ac calls st).2 = 0
  | [], _, _, _, _, _ => rfl
  | (now, newId) :: rest, st, p, t, hh, hin => by
      have hd : refreshDispatch iv ac now newId st = (.awaitInflight p, st) := by
        unfold refreshDispatch
        rw [if_neg hac, hh, hin]
      show ((refreshDispatch iv ac now newId st).1.probes
        + (concurrentCalls iv ac rest (refreshDispatch iv ac now newId st).2).2) = 0
      rw [hd]
      show (0 + (concurrentCalls iv ac rest st).2) = 0
      rw [Nat.zero_add]
      exact concurrentCalls_inflight_probes iv ac hac rest st p t hh hin

/-- N concurrent calls on a fresh (empty) entry trigger exactly one probe
round. -/
theorem concurrentCalls_initial_probes {H : Type} (iv : Int) (ac : Nat)
    (hac : ac ≠ 0) (calls : List (Int × Nat)) (hne : calls ≠ []) :
    (concurrentCalls iv ac calls (CacheEntry.initial H)).2 = 1 := by
  cases calls with
  | nil => exact absurd rfl hne
  | cons c rest =>
      rcases c with ⟨now, newId⟩
      have hd : refreshDispatch iv ac now newId (CacheEntry.initial H)
          = (.startProbe newId,
            { (CacheEntry.initial H) with inflight := some (newId, now) }) := by
        unfold refreshDispatch CacheEntry.initial
        rw [if_neg hac]
      show ((refreshDispatch iv ac now newId (CacheEntry.initial H)).1.probes
        + (concurrentCalls iv ac rest
            (refreshDispatch iv ac now newId (CacheEntry.initial H)).2).2) = 1
      rw [hd]
      show (1 + (concurrentCalls iv ac rest
        { (CacheEntry.initial H) with inflight := some (newId, now) }).2) = 1
      rw [concurrentCalls_inflight_probes iv ac hac rest _ newId now rfl rfl]

/-- Claim C3: per cache key, (i) in every state reachable from a fresh
entry an installed in-flight refresh was installed against a stale or
absent cache, and (ii) under that invariant a call made while a refresh is
in flight awaits exactly that in-flight promise, changes nothing and starts
no probe; (iii) a call finding a cached history younger than the poll
interval returns it without probing; and (iv) any positive number of
back-to-back calls on a fresh empty entry triggers exactly one probe
round. -/
theorem claim_c3 {H : Type} (iv : Int) (ac : Nat) (hac : ac ≠ 0) :
    (∀ evs : List (CacheEvent H),
      CacheInv iv (cacheRun iv ac (CacheEntry.initial H) evs))
    ∧ (∀ (st : CacheEntry H) (p : Nat) (t now : Int) (newId : Nat),
        CacheInv iv st → st.inflight = some (p, t) → t ≤ now →
        refreshDispatch iv ac now newId st = (.awaitInflight p, st)
        ∧ ((RefreshAction.awaitInflight p : RefreshAction H)).probes = 0)
    ∧ (∀ (st : CacheEntry H) (h : H) (now : Int) (newId : Nat),
        st.history = some h → now - st.lastPingAt < iv →
        refreshDispatch iv ac now newId st = (.returnCached h, st)
        ∧ ((RefreshAction.returnCached h : RefreshAction H)).probes = 0)
    ∧ (∀ calls : List (Int × Nat), calls ≠ [] →
        (concurrentCalls iv ac calls (CacheEntry.initial H)).2 = 1) := by
  refine ⟨?_, ?_, ?_, ?_⟩
  · intro evs
    apply cacheInv_run iv ac evs (CacheEntry.initial H)
    intro p t hpt
    simp [CacheEntry.initial] at hpt
  · intro st p t now newId hInv hin ht
    exact ⟨refreshDispatch_awaits iv ac now newId st p t hac hInv hin ht, rfl⟩
  · intro st h now newId hh hfresh
    exact ⟨refreshDispatch_cached iv ac now newId st h hac hh hfresh, rfl⟩
  · intro calls hne
    exact concurrentCalls_initial_probes iv ac hac calls hne

/-- Witness for claim C3 with a two-call burst on a fresh entry. -/
theorem claim_c3_witness :
    ((concurrentCalls 60000 3 [(5, 1), (6, 2)] (CacheEntry.initial Nat)).2 = 1)
    ∧ (refreshDispatch 60000 3 7 3
        { history := some 42, lastPingAt := 0, inflight := none }
        = (.returnCached 42,
          { history := some 42, lastPingAt := 0, inflight := none })) := by
  have h := @claim_c3 Nat 60000 3 (by decide)
  refine ⟨h.2.2.2 [(5, 1), (6, 2)] (by decide), ?_⟩
  exact (h.2.2.1 { history := some 42, lastPingAt := 0, inflight := none }
    42 7 3 rfl (by decide)).1

/-- A refresh run probes either nothing or exactly the active configs it was
given. -/
theorem refreshHistoryRun_probed (env : GroupLoadEnv) (gs : GroupStore)
    (a : List DbConfig) (ids : List String) (now : Int) :
    (refreshHistoryRun env gs a ids now).2.1 = []
    ∨ (refreshHistoryRun env gs a ids now).2.1 = a := by
  unfold refreshHistoryRun
  dsimp only
  repeat' split
  all_goals first
  | exact Or.inl rfl
  | exact Or.inr rfl

/-- A refresh run writes either nothing or exactly the one batch produced by
probing the active configs. -/
theorem refreshHistoryRun_written (env : GroupLoadEnv) (gs : GroupStore)
    (a : List DbConfig) (ids : List String) (now : Int) :
    (refreshHistoryRun env gs a ids now).2.2 = []
    ∨ (refreshHistoryRun env gs a ids now).2.2 = [gs.probeFn a] := by
  unfold refreshHistoryRun
  dsimp only
  repeat' split
  all_goals first
  | exact Or.inl rfl
  | exact Or.inr rfl

/-- Whatever the refresh mode, the probed set is empty or the active
configs. -/
theorem loadRefreshed_probed (env : GroupLoadEnv) (gs : GroupStore)
    (allConfigs : List DbConfig) (target : String) (mode : RefreshMode) (now : Int) :
    (loadRefreshed env gs allConfigs target mode now).2.1 = []
    ∨ (loadRefreshed env gs allConfigs target mode now).2.1
        = activeConfigsOf allConfigs target := by
  cases mode with
  | always => exact refreshHistoryRun_probed env gs _ _ now
  | missing =>
      by_cases hcond : (!(allowedIdsOf allConfigs target).isEmpty) = true
          ∧ List.isEmpty (filterHistorySnap (allowedIdsOf allConfigs target) gs.store) = true
      · have he : loadRefreshed env gs allConfigs target .missing now
            = refreshHistoryRun env gs (activeConfigsOf allConfigs target)
                (allowedIdsOf allConfigs target) now := by
          unfold loadRefreshed
          dsimp only
          rw [if_pos hcond]
        rw [he]
        exact refreshHistoryRun_probed env gs _ _ now
      · have he : loadRefreshed env gs allConfigs target .missing now
            = (filterHistorySnap (allowedIdsOf allConfigs target) gs.store, [], []) := by
          unfold loadRefreshed
          dsimp only
          rw [if_neg hcond]
        rw [he]
        exact Or.inl rfl
  | never => exact Or.inl rfl

/-- Whatever the refresh mode, the written batches are empty or the single
batch probed from the active configs. -/
theorem loadRefreshed_written (env : GroupLoadEnv) (gs : GroupStore)
    (allConfigs : List DbConfig) (target : String) (mode : RefreshMode) (now : Int) :
    (loadRefreshed env gs allConfigs target mode now).2.2 = []
    ∨ (loadRefreshed env gs allConfigs target mode now).2.2
        = [gs.probeFn (activeConfigsOf allConfigs target)] := by
  cases mode with
  | always => exact refreshHistoryRun_written env gs _ _ now
  | missing =>
      by_cases hcond : (!(allowedIdsOf allConfigs target).isEmpty) = true
          ∧ List.isEmpty (filterHistorySnap (allowedIdsOf allConfigs target) gs.store) = true
      · have he : loadRefreshed env gs allConfigs target .missing now
            = refreshHistoryRun env gs (activeConfigsOf allConfigs target)
                (allowedIdsOf allConfigs target) now := by
          unfold loadRefreshed
          dsimp only
          rw [if_pos hcond]
        rw [he]
        exact refreshHistoryRun_written env gs _ _ now
      · have he : loadRefreshed env gs allConfigs target .missing now
            = (filterHistorySnap (allowedIdsOf allConfigs target) gs.store, [], []) := by
          unfold loadRefreshed
          dsimp only
          rw [if_neg hcond]
        rw [he]
        exact Or.inl rfl
  | never => exact Or.inl rfl

/-- The synthesized maintenance timeline has the config's id, no items, and
a `maintenance`-status latest entry. -/
theorem maintenanceTimeline_shape (env : GroupLoadEnv) (nowStr : String)
    (cfg : DbConfig) :
    (maintenanceTimeline env nowStr cfg).id = cfg.id
    ∧ (maintenanceTimeline env nowStr cfg).items = []
    ∧ (maintenanceTimeline env nowStr cfg).latest.status = .maintenance := by
  unfold maintenanceTimeline
  cases env.official cfg.type <;> exact ⟨rfl, rfl, rfl⟩

/-- Claim C7: a maintenance-flagged config of the target group is never
among the configs probed by a dashboard load and never appears (by id) in
any batch written to the history store, yet the returned dashboard always
contains a timeline for it with an empty item list and a synthesized
`maintenance` latest entry. -/
theorem claim_c7 (env : GroupLoadEnv) (gs : GroupStore) (allConfigs : List DbConfig)
    (target : String) (mode : RefreshMode) (now : Int) (nowStr : String)
    (cfg : DbConfig) (hmem : cfg ∈ allConfigs) (hgrp : groupMatches target cfg = true)
    (hmain : cfg.is_maintenance = true)
    (hids : ((allConfigs.map (fun k => k.id)).Nodup))
    (hprobe : ∀ cs : List DbConfig, ∀ r ∈ gs.probeFn cs, ∃ k ∈ cs, r.id = k.id) :
    (cfg ∉ (loadGroupDashboardData env gs allConfigs target mode now nowStr).probed)
    ∧ (∀ batch ∈ (loadGroupDashboardData env gs allConfigs target mode now nowStr).written,
        ∀ r ∈ batch, r.id ≠ cfg.id)
    ∧ (∃ d, (loadGroupDashboardData env gs allConfigs target mode now nowStr).data = some d
        ∧ ∃ tl ∈ d.providerTimelines,
            tl.id = cfg.id ∧ tl.items = [] ∧ tl.latest.status = .maintenance) := by
  have hgc : cfg ∈ groupConfigsOf allConfigs target :=
    List.mem_filter.mpr ⟨hmem, hgrp⟩
  have hgcne : (groupConfigsOf allConfigs target).isEmpty = false := by
    cases hgc' : groupConfigsOf allConfigs target with
    | nil =>
        rw [hgc'] at hgc
        exact absurd hgc (List.not_mem_nil cfg)
    | cons a l => rfl
  have hnotactive : cfg ∉ activeConfigsOf allConfigs target := by
    intro hmem'
    have h2 := (List.mem_filter.mp hmem').2
    rw [hmain] at h2
    simp at h2
  have hactiveid : ∀ k ∈ activeConfigsOf allConfigs target, k.id ≠ cfg.id := by
    intro k hk he
    have hkg : k ∈ groupConfigsOf allConfigs target := (List.mem_filter.mp hk).1
    have hkall : k ∈ allConfigs := (List.mem_filter.mp hkg).1
    have hkeq : k = cfg :=
      List.inj_on_of_nodup_map hids hkall hmem he
    rw [hkeq] at hk
    exact hnotactive hk
  unfold loadGroupDashboardData
  simp only [hgcne, Bool.false_eq_true, if_false]
  refine ⟨?_, ?_, ?_⟩
  · rcases loadRefreshed_probed env gs allConfigs target mode now with h | h <;> rw [h]
    · exact List.not_mem_nil cfg
    · exact hnotactive
  · intro batch hbatch r hr
    rcases loadRefreshed_written env gs allConfigs target mode now with h | h <;>
      rw [h] at hbatch
    · exact absurd hbatch (List.not_mem_nil batch)
    · have hb : batch = gs.probeFn (activeConfigsOf allConfigs target) := by
        rcases List.mem_cons.mp hbatch with h' | h'
        · exact h'
        · exact absurd h' (List.not_mem_nil batch)
      rw [hb] at hr
      rcases hprobe (activeConfigsOf allConfigs target) r hr with ⟨k, hk, hrid⟩
      rw [hrid]
      exact hactiveid k hk
  · refine ⟨assembleGroupData env allConfigs target
      (loadRefreshed env gs allConfigs target mode now).1 now nowStr, rfl,
      maintenanceTimeline env nowStr cfg, ?_, (maintenanceTimeline_shape env nowStr cfg).1,
      (maintenanceTimeline_shape env nowStr cfg).2.1,
      (maintenanceTimeline_shape env nowStr cfg).2.2⟩
    show maintenanceTimeline env nowStr cfg ∈
      (assembleGroupData env allConfigs target
        (loadRefreshed env gs allConfigs target mode now).1 now nowStr).providerTimelines
    unfold assembleGroupData
    refine (List.mergeSort_perm _ _).mem_iff.mpr (List.mem_append.mpr (Or.inr ?_))
    exact List.mem_map_of_mem (maintenanceTimeline env nowStr)
      (List.mem_filter.mpr ⟨hgc, hmain⟩)

/-- Sample group environment for witnesses. -/
def sampleGroupEnv : GroupLoadEnv :=
  { cmp := fun _ _ => Ordering.eq
    parseTime := fun _ => 0
    official := fun _ => none
    pollIntervalMs := 60000
    pollIntervalLabel := "1m" }

/-- Sample group store for witnesses: empty store, probes return nothing. -/
def sampleGroupStore : GroupStore :=
  { store := []
    appendFn := fun _ => []
    probeFn := fun _ => []
    cache := CacheEntry.initial HistorySnapshot
    inflightValue := [] }

/-- A maintenance-flagged config in group `g`. -/
def dbCfgM : DbConfig :=
  { id := "m", name := "M", type := .openai, endpoint := "e", model := "mm"
    groupName := some "g", is_maintenance := true }

/-- An active (non-maintenance) config in group `g`. -/
def dbCfgA : DbConfig :=
  { id := "a", name := "A", type := .openai, endpoint := "e", model := "ma"
    groupName := some "g", is_maintenance := false }

/-- Witness for claim C7 on a one-config maintenance group. -/
theorem claim_c7_witness :
    (dbCfgM ∉ (loadGroupDashboardData sampleGroupEnv sampleGroupStore [dbCfgM]
        ("g") .missing 0 ("t")).probed)
    ∧ (∃ d, (loadGroupDashboardData sampleGroupEnv sampleGroupStore [dbCfgM]
        ("g") .missing 0 ("t")).data = some d
        ∧ ∃ tl ∈ d.providerTimelines,
            tl.id = dbCfgM.id ∧ tl.items = [] ∧ tl.latest.status = .maintenance) := by
  have h := claim_c7 sampleGroupEnv sampleGroupStore [dbCfgM] ("g") .missing 0 ("t")
    dbCfgM (List.mem_singleton.mpr rfl) rfl rfl (by decide)
    (fun cs r hr => absurd hr (List.not_mem_nil r))
  exact ⟨h.1, h.2.2⟩

/-- Normalization of one timeline for comparing snapshots across call
instants: the synthesized `checkedAt` of a maintenance entry is cleared. -/
def stripTimeline (tl : ProviderTimeline) : ProviderTimeline :=
  if tl.latest.status = .maintenance then
    { tl with latest := { tl.latest with checkedAt := "" } }
  else tl

/-- `stripTimeline` does not change the display name used for sorting. -/
theorem stripTimeline_latest_name (tl : ProviderTimeline) :
    (stripTimeline tl).latest.name = tl.latest.name := by
  unfold stripTimeline
  split <;> rfl

/-- `stripTimeline` does not change the item list. -/
theorem stripTimeline_items (tl : ProviderTimeline) :
    (stripTimeline tl).items = tl.items := by
  unfold stripTimeline
  split <;> rfl

/-- Normalization of a dashboard snapshot: clear the call-instant
`generatedAt` and the synthesized maintenance timestamps. -/
def stripVolatile (d : GroupDashboardData) : GroupDashboardData :=
  { d with generatedAt := 0
           providerTimelines := d.providerTimelines.map stripTimeline }

/-- Two maintenance timelines synthesized at different instants agree after
normalization. -/
theorem strip_maintenanceTimeline (env : GroupLoadEnv) (s1 s2 : String)
    (cfg : DbConfig) :
    stripTimeline (maintenanceTimeline env s1 cfg)
      = stripTimeline (maintenanceTimeline env s2 cfg) := by
  unfold stripTimeline maintenanceTimeline
  cases env.official cfg.type <;> rfl


/-- Dropping the normalization map does not change the collected items,
since `stripTimeline` never touches items. -/
theorem flatMap_items_map_strip (l : List ProviderTimeline) :
    (l.map stripTimeline).flatMap (fun tl => tl.items)
      = l.flatMap (fun tl => tl.items) := by
  rw [List.flatMap_map]
  have hfun : (fun tl : ProviderTimeline => (stripTimeline tl).items)
      = (fun tl : ProviderTimeline => tl.items) := funext stripTimeline_items
  rw [hfun]

/-- The dashboard assembled from the same history at two different instants
is the same snapshot after normalization. -/
theorem stripVolatile_assemble (env : GroupLoadEnv) (allConfigs : List DbConfig)
    (target : String) (history : HistorySnapshot) (t1 t2 : Int) (s1 s2 : String) :
    stripVolatile (assembleGroupData env allConfigs target history t1 s1)
      = stripVolatile (assembleGroupData env allConfigs target history t2 s2) := by
  have hcond : ∀ (l : List ProviderTimeline), ∀ a ∈ l, ∀ b ∈ l,
      (decide (env.cmp a.latest.name b.latest.name ≠ Ordering.gt))
        = (decide (env.cmp (stripTimeline a).latest.name
            (stripTimeline b).latest.name ≠ Ordering.gt)) := by
    intro l a _ b _
    rw [stripTimeline_latest_name, stripTimeline_latest_name]
  have hmaint : ((maintenanceConfigsOf allConfigs target).map
        (fun cfg => stripTimeline (maintenanceTimeline env s1 cfg)))
      = ((maintenanceConfigsOf allConfigs target).map
        (fun cfg => stripTimeline (maintenanceTimeline env s2 cfg))) :=
    List.map_congr_left (fun cfg _ => strip_maintenanceTimeline env s1 s2 cfg)
  have hPT : ((history.filterMap (mapTimeline env)
        ++ (maintenanceConfigsOf allConfigs target).map
            (maintenanceTimeline env s1)).mergeSort
        (fun a b => env.cmp a.latest.name b.latest.name ≠ Ordering.gt)).map stripTimeline
      = ((history.filterMap (mapTimeline env)
        ++ (maintenanceConfigsOf allConfigs target).map
            (maintenanceTimeline env s2)).mergeSort
        (fun a b => env.cmp a.latest.name b.latest.name ≠ Ordering.gt)).map stripTimeline := by
    rw [@List.map_mergeSort ProviderTimeline ProviderTimeline
        (fun a b => decide (env.cmp a.latest.name b.latest.name ≠ Ordering.gt))
        (fun a b => decide (env.cmp a.latest.name b.latest.name ≠ Ordering.gt))
        stripTimeline _ (hcond _),
      @List.map_mergeSort ProviderTimeline ProviderTimeline
        (fun a b => decide (env.cmp a.latest.name b.latest.name ≠ Ordering.gt))
        (fun a b => decide (env.cmp a.latest.name b.latest.name ≠ Ordering.gt))
        stripTimeline _ (hcond _),
      List.map_append, List.map_append, List.map_map, List.map_map]
    rw [show (stripTimeline ∘ maintenanceTimeline env s1)
        = (fun cfg => stripTimeline (maintenanceTimeline env s1 cfg)) from rfl,
      show (stripTimeline ∘ maintenanceTimeline env s2)
        = (fun cfg => stripTimeline (maintenanceTimeline env s2 cfg)) from rfl,
      hmaint]
  have hflatPT : ((history.filterMap (mapTimeline env)
        ++ (maintenanceConfigsOf allConfigs target).map
            (maintenanceTimeline env s1)).mergeSort
        (fun a b => env.cmp a.latest.name b.latest.name ≠ Ordering.gt)).flatMap
          (fun tl => tl.items)
      = ((history.filterMap (mapTimeline env)
        ++ (maintenanceConfigsOf allConfigs target).map
            (maintenanceTimeline env s2)).mergeSort
        (fun a b => env.cmp a.latest.name b.latest.name ≠ Ordering.gt)).flatMap
          (fun tl => tl.items) := by
    rw [← flatMap_items_map_strip, hPT, flatMap_items_map_strip]
  have hlen : ((history.filterMap (mapTimeline env)
        ++ (maintenanceConfigsOf allConfigs target).map
            (maintenanceTimeline env s1)).mergeSort
        (fun a b => env.cmp a.latest.name b.latest.name ≠ Ordering.gt)).length
      = ((history.filterMap (mapTimeline env)
        ++ (maintenanceConfigsOf allConfigs target).map
            (maintenanceTimeline env s2)).mergeSort
        (fun a b => env.cmp a.latest.name b.latest.name ≠ Ordering.gt)).length := by
    have h1 := congrArg List.length hPT
    rwa [List.length_map, List.length_map] at h1
  unfold stripVolatile assembleGroupData
  dsimp only
  rw [GroupDashboardData.mk.injEq]
  exact ⟨rfl, rfl, hPT, by rw [hflatPT], hlen, rfl, rfl, rfl⟩

/-- Claim C8 counterexample: two `refreshMode="never"` loads of the same
group against the same store, made at clock instants 0 and 1, return
different snapshots — the `generatedAt` field records the call instant —
refuting the claim that repeated calls return identical snapshots. -/
theorem claim_c8_counterexample :
    loadGroupDashboardData sampleGroupEnv sampleGroupStore [dbCfgA] ("g") .never 0 ("t0")
      ≠ loadGroupDashboardData sampleGroupEnv sampleGroupStore [dbCfgA] ("g")
          .never 1 ("t1") := by
  intro h
  have h2 := congrArg (fun o => (o.data).map (fun d => d.generatedAt)) h
  have e1 : ((loadGroupDashboardData sampleGroupEnv sampleGroupStore [dbCfgA] ("g")
      .never 0 ("t0")).data).map (fun d => d.generatedAt) = some 0 := rfl
  have e2 : ((loadGroupDashboardData sampleGroupEnv sampleGroupStore [dbCfgA] ("g")
      .never 1 ("t1")).data).map (fun d => d.generatedAt) = some 1 := rfl
  simp only [e1, e2] at h2
  exact absurd h2 (by decide)

/-- Claim C8, amended: a `refreshMode="never"` load never probes and never
writes; its result does not depend on the probe, append, cache or in-flight
collaborators at all (only on the persisted store); and two such loads of
the same group against the same store, at any two instants, return
identical snapshots up to the volatile fields — the `generatedAt` call
timestamp and the synthesized `checkedAt` of maintenance entries. -/
theorem claim_c8_amended (env : GroupLoadEnv) (store : HistorySnapshot)
    (a1 a2 : List CheckResult → HistorySnapshot)
    (p1 p2 : List DbConfig → List CheckResult)
    (c1 c2 : CacheEntry HistorySnapshot) (i1 i2 : HistorySnapshot)
    (allConfigs : List DbConfig) (target : String) (t1 t2 : Int) (s1 s2 : String) :
    ((loadGroupDashboardData env ⟨store, a1, p1, c1, i1⟩ allConfigs target
        .never t1 s1).probed = [])
    ∧ ((loadGroupDashboardData env ⟨store, a1, p1, c1, i1⟩ allConfigs target
        .never t1 s1).written = [])
    ∧ (loadGroupDashboardData env ⟨store, a1, p1, c1, i1⟩ allConfigs target
        .never t1 s1
      = loadGroupDashboardData env ⟨store, a2, p2, c2, i2⟩ allConfigs target
        .never t1 s1)
    ∧ (((loadGroupDashboardData env ⟨store, a1, p1, c1, i1⟩ allConfigs target
          .never t1 s1).data).map stripVolatile
      = ((loadGroupDashboardData env ⟨store, a2, p2, c2, i2⟩ allConfigs target
          .never t2 s2).data).map stripVolatile) := by
  refine ⟨?_, ?_, ?_, ?_⟩
  · unfold loadGroupDashboardData
    split
    · rfl
    · rfl
  · unfold loadGroupDashboardData
    split
    · rfl
    · rfl
  · unfold loadGroupDashboardData
    split
    · rfl
    · rfl
  · unfold loadGroupDashboardData
    split
    · rfl
    · show some (stripVolatile (assembleGroupData env allConfigs target
          (filterHistorySnap (allowedIdsOf allConfigs target) store) t1 s1))
        = some (stripVolatile (assembleGroupData env allConfigs target
          (filterHistorySnap (allowedIdsOf allConfigs target) store) t2 s2))
      rw [stripVolatile_assemble env allConfigs target _ t1 t2 s1 s2]

/-- Claim C10: the batch returned by `runProviderChecks` is sorted by
display name under the `localeCompare` order (given that order is a total
preorder) and is a permutation of the per-config results in config order
(`Promise.all` preserves positional order, so the output is deterministic
and independent of probe completion timing); and the `providerTimelines`
of any returned group dashboard are sorted by `latest.name` under the same
order. -/
theorem claim_c10 (env : JsEnv) (cmp : String → String → Ordering)
    (configs : List ProviderConfig) (behave : ProviderConfig → ProviderRunModel)
    (htrans : ∀ a b c : String,
      cmp a b ≠ Ordering.gt → cmp b c ≠ Ordering.gt → cmp a c ≠ Ordering.gt)
    (htotal : ∀ a b : String, cmp a b ≠ Ordering.gt ∨ cmp b a ≠ Ordering.gt) :
    List.Pairwise (fun a b : CheckResult => cmp a.name b.name ≠ Ordering.gt)
      (runProviderChecks env cmp configs behave)
    ∧ (runProviderChecks env cmp configs behave).Perm
        (configs.map (runOneProviderCheck env behave))
    ∧ (∀ (genv : GroupLoadEnv) (gs : GroupStore) (allConfigs : List DbConfig)
        (target : String) (mode : RefreshMode) (now : Int) (nowStr : String)
        (d : GroupDashboardData),
        (∀ a b c : String, genv.cmp a b ≠ Ordering.gt → genv.cmp b c ≠ Ordering.gt →
          genv.cmp a c ≠ Ordering.gt) →
        (∀ a b : String, genv.cmp a b ≠ Ordering.gt ∨ genv.cmp b a ≠ Ordering.gt) →
        (loadGroupDashboardData genv gs allConfigs target mode now nowStr).data = some d →
        List.Pairwise (fun a b : ProviderTimeline =>
          genv.cmp a.latest.name b.latest.name ≠ Ordering.gt) d.providerTimelines) := by
  refine ⟨?_, ?_, ?_⟩
  · unfold runProviderChecks
    refine List.Pairwise.imp ?_ (List.sorted_mergeSort ?_ ?_
      (configs.map (runOneProviderCheck env behave)))
    · intro a b hab
      exact of_decide_eq_true hab
    · intro a b c h1 h2
      exact decide_eq_true (htrans a.name b.name c.name
        (of_decide_eq_true h1) (of_decide_eq_true h2))
    · intro a b
      rcases htotal a.name b.name with h | h <;> simp [h]
  · exact List.mergeSort_perm _ _
  · intro genv gs allConfigs target mode now nowStr d htr hto hdata
    unfold loadGroupDashboardData at hdata
    split at hdata
    · exact absurd hdata (by simp)
    · have hd : d = assembleGroupData genv allConfigs target
          (loadRefreshed genv gs allConfigs target mode now).1 now nowStr := by
        have := hdata
        simp only [Option.some.injEq] at this
        exact this.symm
      rw [hd]
      unfold assembleGroupData
      dsimp only
      refine List.Pairwise.imp ?_ (List.sorted_mergeSort ?_ ?_ _)
      · intro a b hab
        exact of_decide_eq_true hab
      · intro a b c h1 h2
        exact decide_eq_true (htr a.latest.name b.latest.name c.latest.name
          (of_decide_eq_true h1) (of_decide_eq_true h2))
      · intro a b
        rcases hto a.latest.name b.latest.name with h | h <;> simp [h]

/-- Witness for claim C10 under the trivial (constant) comparison order. -/
theorem claim_c10_witness :
    List.Pairwise (fun a b : CheckResult =>
        (fun _ _ : String => Ordering.eq) a.name b.name ≠ Ordering.gt)
      (runProviderChecks sampleEnv (fun _ _ => Ordering.eq) [sampleConfig]
        (fun _ => .threw ("t") none))
    ∧ (runProviderChecks sampleEnv (fun _ _ => Ordering.eq) [sampleConfig]
        (fun _ => .threw ("t") none)).Perm
        ([sampleConfig].map
          (runOneProviderCheck sampleEnv (fun _ => .threw ("t") none))) := by
  have h := claim_c10 sampleEnv (fun _ _ => Ordering.eq) [sampleConfig]
    (fun _ => .threw ("t") none) (fun _ _ _ h1 _ => h1)
    (fun _ _ => Or.inl (fun hx => Ordering.noConfusion hx))
  exact ⟨h.1, h.2.1⟩
